import Mathlib

/-!
Verification development for the revised primal simplex iteration engine
(HEkkPrimal) of the HiGHS linear optimization suite.

The C++ source (src/simplex/HEkkPrimal.cpp, util/HighsSort.cpp) is shallowly
embedded below.  Machine doubles are modelled as exact rationals; arrays are
modelled as functions out of Nat together with explicit index lists for the
packed sparse vectors; the external collaborators (basis factorization
FTRAN/BTRAN/PRICE, basis bookkeeping) are taken as parameters.  Library
square roots are modelled by an explicit function argument constrained, where
a theorem needs it, to be a genuine square root of the value at which the
code applies it.
-/

namespace HEkkPrimal

/-- `HIGHS_CONST_INF`, the value HiGHS uses for infinite bounds. -/
def HIGHS_CONST_INF : ℚ := 10 ^ 200

/-- The rebuild reasons used by the primal simplex engine
(`REBUILD_REASON_*`).  The numeric codes live in a header that is not part
of the sources; only their distinctness matters here. -/
inductive RebuildReason where
  | no
  | possiblyOptimal
  | possiblyPrimalUnbounded
  | possiblySingularBasis
  | primalInfeasibleInPrimalSimplex
  | updateLimitReached
  | syntheticClockSaysInvert
  deriving DecidableEq, Repr

/-- The scaled model statuses the engine reports (`HighsModelStatus`). -/
inductive ModelStatus where
  | notset
  | optimal
  | primalInfeasible
  | primalUnbounded
  | primalDualInfeasible
  | solveError
  deriving DecidableEq, Repr

/-- The solve phases of the two-phase driver (`SOLVE_PHASE_*`). -/
inductive SolvePhase where
  | phaseError
  | phaseExit
  | phaseUnknown
  | phaseOptimal
  | phase1
  | phase2
  | phaseCleanup
  deriving DecidableEq, Repr

/-- Result of `HEkkPrimal::shiftBound`: the new bound, the new cumulative
shift, and the shift that was applied (the source mutates `bound` and
`sum_shift` through references). -/
structure ShiftBoundResult where
  bound : ℚ
  sumShift : ℚ
  shift : ℚ
  deriving DecidableEq, Repr

/-- `HEkkPrimal::shiftBound` (HEkkPrimal.cpp:2170-2219).  Widens the violated
bound of variable `iVar` so that `value` becomes feasible by the margin
`(1 + random_value) * tolerance`. -/
def shiftBound (lower : Bool) (value random_value tolerance bound sum_shift : ℚ) :
    ShiftBoundResult :=
  let feasibility := (1 + random_value) * tolerance
  if lower then
    -- Bound to shift is lower
    let infeasibility := bound - value
    let shift := infeasibility + feasibility
    ⟨bound - shift, sum_shift + shift, shift⟩
  else
    -- Bound to shift is upper
    let infeasibility := value - bound
    let shift := infeasibility + feasibility
    ⟨bound + shift, sum_shift + shift, shift⟩

/-- C8: for every call of `shiftBound` in which the value violates the bound
by more than the tolerance, the applied shift equals
`infeasibility + (1 + r) * tol`, the shift is accumulated into `sum_shift`,
and the resulting bound satisfies `value - bound = (1+r)*tol` exactly for a
lower bound (`bound - value = (1+r)*tol` for an upper bound); in particular
`|(value - bound) - (1+r)*tol| < 1e-12`. -/
theorem shiftBound_round_trip (lower : Bool) (value r tol bound sum_shift : ℚ)
    (hviol : if lower then value < bound - tol else value > bound + tol) :
    (shiftBound lower value r tol bound sum_shift).shift
        = (if lower then bound - value else value - bound) + (1 + r) * tol ∧
    (shiftBound lower value r tol bound sum_shift).sumShift
        = sum_shift + (shiftBound lower value r tol bound sum_shift).shift ∧
    (if lower then value - (shiftBound lower value r tol bound sum_shift).bound
      else (shiftBound lower value r tol bound sum_shift).bound - value)
        = (1 + r) * tol ∧
    |(if lower then value - (shiftBound lower value r tol bound sum_shift).bound
       else (shiftBound lower value r tol bound sum_shift).bound - value)
        - (1 + r) * tol| < 1 / 10 ^ 12 := by
  cases lower with
  | false =>
    simp only [Bool.false_eq_true, if_false]
    refine ⟨by simp [shiftBound], by simp [shiftBound], by simp [shiftBound]; ring, ?_⟩
    have h : (shiftBound false value r tol bound sum_shift).bound - value
        - (1 + r) * tol = 0 := by
      simp [shiftBound]; ring
    rw [h]
    norm_num
  | true =>
    simp only [if_true]
    refine ⟨by simp [shiftBound], by simp [shiftBound], by simp [shiftBound]; ring, ?_⟩
    have h : value - (shiftBound true value r tol bound sum_shift).bound
        - (1 + r) * tol = 0 := by
      simp [shiftBound]; ring
    rw [h]
    norm_num

/-- Witness for C8 at a concrete input: lower bound 1 violated by value 0
with tolerance 1/100 and random value 1/2. -/
theorem shiftBound_round_trip_witness :
    ((if (true : Bool) then (0:ℚ) < 1 - 1/100 else (0:ℚ) > 1 + 1/100) ∧
     (if (true : Bool) then (0:ℚ) - (shiftBound true 0 (1/2) (1/100) 1 0).bound
       else (shiftBound true 0 (1/2) (1/100) 1 0).bound - 0)
        = (1 + 1/2) * (1/100)) := by
  refine ⟨by norm_num, ?_⟩
  exact (shiftBound_round_trip true 0 (1/2) (1/100) 1 0 (by norm_num)).2.2.1

/-! ## Full CHUZC (HEkkPrimal::chooseColumn, hyper_sparse = false) -/

/-- One step of the running-best CHUZC scan: the loop body of
`HEkkPrimal::chooseColumn` (hyper_sparse = false), which promotes variable
`v` when its dual infeasibility exceeds the tolerance and beats the running
best measure (`dual_infeasibility > best_measure * devex_weight[iCol]`). -/
def chuzcStep (tol : ℚ) (weight : ℕ → ℚ) (inf : ℕ → ℚ) (st : ℤ × ℚ) (v : ℕ) :
    ℤ × ℚ :=
  if tol < inf v ∧ st.2 * weight v < inf v then ((v : ℤ), inf v / weight v) else st

/-- A running-best CHUZC scan over a list of variables. -/
def chuzcScan (tol : ℚ) (weight : ℕ → ℚ) (inf : ℕ → ℚ) (l : List ℕ) (st : ℤ × ℚ) :
    ℤ × ℚ :=
  l.foldl (chuzcStep tol weight inf) st

/-- `HEkkPrimal::chooseColumn` with `hyper_sparse = false` (full CHUZC,
HEkkPrimal.cpp:756-782): scan the nonbasic free columns with infeasibility
`|workDual|`, then all variables with infeasibility
`-nonbasicMove * workDual`, keeping the running best measure.  Returns
`(variable_in, best_measure)`, with `variable_in = -1` when no candidate
passes the tolerance. -/
def chooseColumnFull (numTot : ℕ) (freeEntries : List ℕ) (workDual : ℕ → ℚ)
    (nonbasicMove : ℕ → ℤ) (devexWeight : ℕ → ℚ) (tol : ℚ) : ℤ × ℚ :=
  chuzcScan tol devexWeight (fun v => (-(nonbasicMove v) : ℚ) * workDual v)
    (List.range numTot)
    (chuzcScan tol devexWeight (fun v => |workDual v|) freeEntries (-1, 0))

/-- The dual infeasibility of a variable as the specification defines it:
`|workDual[v]|` for members of the nonbasic free set, and
`-nonbasicMove[v] * workDual[v]` otherwise. -/
def dualInfOf (freeEntries : List ℕ) (workDual : ℕ → ℚ) (nonbasicMove : ℕ → ℤ)
    (v : ℕ) : ℚ :=
  if v ∈ freeEntries then |workDual v| else (-(nonbasicMove v) : ℚ) * workDual v

/-- The CHUZC stage of `HEkkPrimal::iterate` (HEkkPrimal.cpp:593-597): when
CHUZC reports no entering variable the caller records
`REBUILD_REASON_POSSIBLY_OPTIMAL` and returns without pivoting; the returned
Bool says whether the iteration proceeds. -/
def iterateChuzc (variableIn : ℤ) (rebuildReason : RebuildReason) :
    RebuildReason × Bool :=
  if variableIn = -1 then (RebuildReason.possiblyOptimal, false)
  else (rebuildReason, true)

lemma chuzcScan_cons (tol : ℚ) (weight inf : ℕ → ℚ) (v : ℕ) (t : List ℕ)
    (st : ℤ × ℚ) :
    chuzcScan tol weight inf (v :: t) st
      = chuzcScan tol weight inf t (chuzcStep tol weight inf st v) := rfl

lemma chuzcScan_nonneg_fst (tol : ℚ) (weight inf : ℕ → ℚ) (l : List ℕ)
    (st : ℤ × ℚ) (h : 0 ≤ st.1) : 0 ≤ (chuzcScan tol weight inf l st).1 := by
  induction l generalizing st with
  | nil => exact h
  | cons v t ih =>
    rw [chuzcScan_cons]
    by_cases hc : tol < inf v ∧ st.2 * weight v < inf v
    · exact ih _ (by simp [chuzcStep, hc])
    · exact ih _ (by simpa [chuzcStep, hc] using h)

lemma chuzcScan_fst_neg_iff (tol : ℚ) (weight inf : ℕ → ℚ) (htol : 0 ≤ tol)
    (l : List ℕ) (st : ℤ × ℚ) (h0 : st.1 = -1 → st.2 = 0) :
    (chuzcScan tol weight inf l st).1 = -1 ↔
      st.1 = -1 ∧ ∀ v ∈ l, inf v ≤ tol := by
  induction l generalizing st with
  | nil => simp [chuzcScan]
  | cons v t ih =>
    rw [chuzcScan_cons]
    by_cases hc : tol < inf v ∧ st.2 * weight v < inf v
    · have hfired : chuzcStep tol weight inf st v = ((v : ℤ), inf v / weight v) := by
        simp [chuzcStep, hc]
      rw [hfired]
      have hne : (chuzcScan tol weight inf t ((v : ℤ), inf v / weight v)).1 ≠ -1 := by
        have := chuzcScan_nonneg_fst tol weight inf t ((v : ℤ), inf v / weight v)
          (by positivity)
        omega
      constructor
      · intro hcontra; exact absurd hcontra hne
      · rintro ⟨hst, hall⟩
        exact absurd (hall v (List.mem_cons_self v t)) (not_le.mpr hc.1)
    · have hkept : chuzcStep tol weight inf st v = st := by simp [chuzcStep, hc]
      rw [hkept, ih st h0]
      constructor
      · rintro ⟨hst, hall⟩
        refine ⟨hst, fun w hw => ?_⟩
        rcases List.mem_cons.mp hw with rfl | hwt
        · by_contra hgt
          have h2 : st.2 * weight w < inf w := by
            rw [h0 hst]
            simpa using lt_of_le_of_lt htol (not_le.mp hgt)
          exact hc ⟨not_le.mp hgt, h2⟩
        · exact hall w hwt
      · rintro ⟨hst, hall⟩
        exact ⟨hst, fun w hw => hall w (List.mem_cons_of_mem v hw)⟩

lemma chuzcScan_best_mono (tol : ℚ) (weight inf : ℕ → ℚ)
    (hw : ∀ v, 0 < weight v) (l : List ℕ) (st : ℤ × ℚ) :
    st.2 ≤ (chuzcScan tol weight inf l st).2 := by
  induction l generalizing st with
  | nil => exact le_rfl
  | cons v t ih =>
    rw [chuzcScan_cons]
    refine le_trans ?_ (ih (chuzcStep tol weight inf st v))
    by_cases hc : tol < inf v ∧ st.2 * weight v < inf v
    · simp only [chuzcStep, hc, if_true]
      exact le_of_lt ((lt_div_iff (hw v)).mpr hc.2)
    · simp [chuzcStep, hc]

lemma chuzcScan_best_ge (tol : ℚ) (weight inf : ℕ → ℚ)
    (hw : ∀ v, 0 < weight v) (l : List ℕ) (st : ℤ × ℚ) :
    ∀ v ∈ l, tol < inf v →
      inf v / weight v ≤ (chuzcScan tol weight inf l st).2 := by
  induction l generalizing st with
  | nil => intro v hv; exact absurd hv (List.not_mem_nil v)
  | cons u t ih =>
    intro v hv hinf
    rw [chuzcScan_cons]
    rcases List.mem_cons.mp hv with rfl | hvt
    · by_cases hc : tol < inf v ∧ st.2 * weight v < inf v
      · have hfired : chuzcStep tol weight inf st v = ((v : ℤ), inf v / weight v) := by
          simp [chuzcStep, hc]
        rw [hfired]
        exact chuzcScan_best_mono tol weight inf hw t _
      · have hle : inf v ≤ st.2 * weight v := by
          rcases not_and_or.mp hc with h | h
          · exact absurd hinf h
          · exact not_lt.mp h
        have : inf v / weight v ≤ st.2 := (div_le_iff (hw v)).mpr hle
        exact le_trans this (le_trans
          (by by_cases hc2 : tol < inf v ∧ st.2 * weight v < inf v
              · exact absurd hc2 hc
              · simp [chuzcStep, hc2])
          (chuzcScan_best_mono tol weight inf hw t _))
    · exact ih _ v hvt hinf

/-- The invariant carried by the running-best state of full CHUZC: either no
candidate has been found (`(-1, 0)`), or the state records a variable below
`numTot` whose dual infeasibility (in the specification's sense) beats the
tolerance, together with its measure. -/
def ChuzcInv (numTot : ℕ) (freeEntries : List ℕ) (workDual : ℕ → ℚ)
    (nonbasicMove : ℕ → ℤ) (weight : ℕ → ℚ) (tol : ℚ) (st : ℤ × ℚ) : Prop :=
  (st.1 = -1 ∧ st.2 = 0) ∨
  (∃ q : ℕ, st.1 = (q : ℤ) ∧ q < numTot ∧
    tol < dualInfOf freeEntries workDual nonbasicMove q ∧
    st.2 = dualInfOf freeEntries workDual nonbasicMove q / weight q)

lemma chuzcScan_inv (numTot : ℕ) (freeEntries : List ℕ) (workDual : ℕ → ℚ)
    (nonbasicMove : ℕ → ℤ) (weight : ℕ → ℚ) (tol : ℚ) (inf : ℕ → ℚ)
    (l : List ℕ)
    (hl : ∀ v ∈ l, tol < inf v →
      v < numTot ∧ inf v = dualInfOf freeEntries workDual nonbasicMove v)
    (st : ℤ × ℚ)
    (h : ChuzcInv numTot freeEntries workDual nonbasicMove weight tol st) :
    ChuzcInv numTot freeEntries workDual nonbasicMove weight tol
      (chuzcScan tol weight inf l st) := by
  induction l generalizing st with
  | nil => exact h
  | cons v t ih =>
    rw [chuzcScan_cons]
    refine ih (fun w hw => hl w (List.mem_cons_of_mem v hw)) _ ?_
    by_cases hc : tol < inf v ∧ st.2 * weight v < inf v
    · obtain ⟨hlt, heq⟩ := hl v (List.mem_cons_self v t) hc.1
      have hfired : chuzcStep tol weight inf st v = ((v : ℤ), inf v / weight v) := by
        simp [chuzcStep, hc]
      exact Or.inr ⟨v, by rw [hfired], hlt, heq ▸ hc.1, by rw [hfired, ← heq]⟩
    · simpa [chuzcStep, hc] using h

/-- C4: full CHUZC returns a variable `q` of maximal measure
`dual_inf(q)/devex_weight[q]` among all variables whose dual infeasibility
exceeds the tolerance, where `dual_inf` is `|workDual|` on the nonbasic free
set and `-nonbasicMove * workDual` elsewhere; it returns `q = -1` exactly
when no variable beats the tolerance, and in that case the caller records
`REBUILD_REASON_POSSIBLY_OPTIMAL` and does not pivot. -/
theorem chooseColumnFull_spec (numTot : ℕ) (freeEntries : List ℕ)
    (workDual : ℕ → ℚ) (nonbasicMove : ℕ → ℤ) (devexWeight : ℕ → ℚ) (tol : ℚ)
    (rr : RebuildReason) (htol : 0 ≤ tol) (hw : ∀ v, 0 < devexWeight v)
    (hfree_range : ∀ v ∈ freeEntries, v < numTot)
    (hfree_move : ∀ v ∈ freeEntries, nonbasicMove v = 0) :
    ((chooseColumnFull numTot freeEntries workDual nonbasicMove devexWeight tol).1 = -1 ↔
      ∀ v < numTot, dualInfOf freeEntries workDual nonbasicMove v ≤ tol) ∧
    (∀ q : ℕ,
      (chooseColumnFull numTot freeEntries workDual nonbasicMove devexWeight tol).1 = (q : ℤ) →
      q < numTot ∧ tol < dualInfOf freeEntries workDual nonbasicMove q ∧
      (chooseColumnFull numTot freeEntries workDual nonbasicMove devexWeight tol).2
        = dualInfOf freeEntries workDual nonbasicMove q / devexWeight q ∧
      ∀ v < numTot, tol < dualInfOf freeEntries workDual nonbasicMove v →
        dualInfOf freeEntries workDual nonbasicMove v / devexWeight v
          ≤ dualInfOf freeEntries workDual nonbasicMove q / devexWeight q) ∧
    ((chooseColumnFull numTot freeEntries workDual nonbasicMove devexWeight tol).1 = -1 →
      iterateChuzc
        (chooseColumnFull numTot freeEntries workDual nonbasicMove devexWeight tol).1 rr
        = (RebuildReason.possiblyOptimal, false)) := by
  set inf1 : ℕ → ℚ := fun v => |workDual v| with hinf1
  set inf2 : ℕ → ℚ := fun v => (-(nonbasicMove v) : ℚ) * workDual v with hinf2
  set st1 := chuzcScan tol devexWeight inf1 freeEntries (-1, 0) with hst1
  have hres : chooseColumnFull numTot freeEntries workDual nonbasicMove devexWeight tol
      = chuzcScan tol devexWeight inf2 (List.range numTot) st1 := rfl
  have hdi_free : ∀ v ∈ freeEntries,
      dualInfOf freeEntries workDual nonbasicMove v = inf1 v := by
    intro v hv; simp [dualInfOf, hv, hinf1]
  have hdi_nonfree : ∀ v, v ∉ freeEntries →
      dualInfOf freeEntries workDual nonbasicMove v = inf2 v := by
    intro v hv; simp [dualInfOf, hv, hinf2]
  have hinf2_free : ∀ v ∈ freeEntries, inf2 v = 0 := by
    intro v hv; simp [hinf2, hfree_move v hv]
  -- the first stage: `-1` exactly when no free column beats the tolerance
  have h1 : st1.1 = -1 ↔ ∀ v ∈ freeEntries, inf1 v ≤ tol := by
    simpa using chuzcScan_fst_neg_iff tol devexWeight inf1 htol freeEntries (-1, 0)
      (fun _ => rfl)
  have h1zero : st1.1 = -1 → st1.2 = 0 := by
    intro hneg
    have hinv := chuzcScan_inv numTot freeEntries workDual nonbasicMove devexWeight tol
      inf1 freeEntries
      (fun v hv _ => ⟨hfree_range v hv, (hdi_free v hv).symm⟩) (-1, 0)
      (Or.inl ⟨rfl, rfl⟩)
    rcases hinv with ⟨_, h⟩ | ⟨q, hq, _⟩
    · exact h
    · rw [hst1] at hneg; omega
  -- the composite result satisfies the running-state invariant
  have hinv : ChuzcInv numTot freeEntries workDual nonbasicMove devexWeight tol
      (chuzcScan tol devexWeight inf2 (List.range numTot) st1) := by
    refine chuzcScan_inv numTot freeEntries workDual nonbasicMove devexWeight tol
      inf2 (List.range numTot) ?_ st1 ?_
    · intro v hv hlt
      refine ⟨List.mem_range.mp hv, ?_⟩
      by_cases hvf : v ∈ freeEntries
      · exact absurd (hinf2_free v hvf ▸ hlt) (not_lt.mpr htol)
      · exact (hdi_nonfree v hvf).symm
    · exact chuzcScan_inv numTot freeEntries workDual nonbasicMove devexWeight tol
        inf1 freeEntries
        (fun v hv _ => ⟨hfree_range v hv, (hdi_free v hv).symm⟩) (-1, 0)
        (Or.inl ⟨rfl, rfl⟩)
  refine ⟨?_, ?_, ?_⟩
  · -- q = -1 iff no variable beats the tolerance
    rw [hres, chuzcScan_fst_neg_iff tol devexWeight inf2 htol (List.range numTot) st1 h1zero]
    constructor
    · rintro ⟨hneg, hall⟩ v hv
      by_cases hvf : v ∈ freeEntries
      · exact (hdi_free v hvf) ▸ (h1.mp hneg v hvf)
      · exact (hdi_nonfree v hvf) ▸ hall v (List.mem_range.mpr hv)
    · intro hall
      refine ⟨h1.mpr fun v hv => (hdi_free v hv) ▸ hall v (hfree_range v hv), ?_⟩
      intro v hv
      by_cases hvf : v ∈ freeEntries
      · exact (hinf2_free v hvf) ▸ htol
      · exact (hdi_nonfree v hvf) ▸ hall v (List.mem_range.mp hv)
  · -- when q ≥ 0 it is a candidate of maximal measure
    intro q hq
    rw [hres] at hq
    rcases hinv with ⟨hneg, _⟩ | ⟨q', hq', hlt, hinf, hmeas⟩
    · rw [hq] at hneg; omega
    · have hqq : q = q' := by omega
      subst hqq
      refine ⟨hlt, hinf, by rw [hres]; exact hmeas, ?_⟩
      intro v hv hvinf
      rw [← hmeas]
      by_cases hvf : v ∈ freeEntries
      · -- free columns are covered by the first stage, then monotonicity
        have hstage1 : inf1 v / devexWeight v ≤ st1.2 :=
          chuzcScan_best_ge tol devexWeight inf1 hw freeEntries (-1, 0) v hvf
            ((hdi_free v hvf) ▸ hvinf)
        exact le_trans ((hdi_free v hvf) ▸ hstage1)
          (chuzcScan_best_mono tol devexWeight inf2 hw (List.range numTot) st1)
      · exact (hdi_nonfree v hvf) ▸
          chuzcScan_best_ge tol devexWeight inf2 hw (List.range numTot) st1 v
            (List.mem_range.mpr hv) ((hdi_nonfree v hvf) ▸ hvinf)
  · intro hneg
    simp [iterateChuzc, hneg]

/-- Witness for C4: two variables, variable 0 at its lower bound with reduced
cost −5 (dual infeasibility 5), tolerance 1/2, unit weights. -/
theorem chooseColumnFull_spec_witness :
    ((0:ℚ) ≤ 1/2 ∧ (∀ v : ℕ, (0:ℚ) < (fun _ => (1:ℚ)) v) ∧
     (∀ v ∈ ([] : List ℕ), v < 2) ∧
     (∀ v ∈ ([] : List ℕ), (fun w => if w = 0 then (1:ℤ) else 0) v = 0)) ∧
    ((chooseColumnFull 2 [] (fun w => if w = 0 then (-5:ℚ) else 0)
        (fun w => if w = 0 then (1:ℤ) else 0) (fun _ => (1:ℚ)) (1/2)).1 = -1 ↔
      ∀ v < 2, dualInfOf [] (fun w => if w = 0 then (-5:ℚ) else 0)
        (fun w => if w = 0 then (1:ℤ) else 0) v ≤ 1/2) := by
  refine ⟨⟨by norm_num, fun v => by norm_num, fun v hv => absurd hv (List.not_mem_nil v),
    fun v hv => absurd hv (List.not_mem_nil v)⟩, ?_⟩
  exact (chooseColumnFull_spec 2 [] (fun w => if w = 0 then (-5:ℚ) else 0)
    (fun w => if w = 0 then (1:ℤ) else 0) (fun _ => (1:ℚ)) (1/2)
    RebuildReason.no (by norm_num) (fun v => by norm_num)
    (fun v hv => absurd hv (List.not_mem_nil v))
    (fun v hv => absurd hv (List.not_mem_nil v))).1

/-! ## Hyper-sparse CHUZC (HEkkPrimal::chooseColumn hyper_sparse = true,
HEkkPrimal::hyperChooseColumn) -/

/-- Modelled from the spec: the minimum measure held in the top-K heap
(`HighsSort.h`'s decreasing-heap helpers are not among the sources; §4.3
describes a fixed-capacity container keeping the K largest (measure, id)
pairs). -/
def heapMinMeasure : List (ℚ × ℕ) → ℚ
  | [] => 0
  | [p] => p.1
  | p :: q :: t => min p.1 (heapMinMeasure (q :: t))

/-- Modelled from the spec: remove the first pair carrying measure `m`. -/
def heapEraseMinAux (m : ℚ) : List (ℚ × ℕ) → List (ℚ × ℕ)
  | [] => []
  | p :: t => if p.1 = m then t else p :: heapEraseMinAux m t

/-- Modelled from the spec: drop one pair of minimal measure. -/
def heapEraseMin (l : List (ℚ × ℕ)) : List (ℚ × ℕ) :=
  heapEraseMinAux (heapMinMeasure l) l

/-- Modelled from the spec: `addToDecreasingHeap` (§4.3) — insert if the
container holds fewer than K pairs, or if the measure exceeds the current
smallest kept measure (which is then dropped). -/
def addToDecreasingHeap (K : ℕ) (heap : List (ℚ × ℕ)) (measure : ℚ) (id : ℕ) :
    List (ℚ × ℕ) :=
  if heap.length < K then (measure, id) :: heap
  else if heapMinMeasure heap < measure then (measure, id) :: heapEraseMin heap
  else heap

/-- The descending order used by `sortDecreasingHeap`: larger measures first,
ties broken by id ascending (§4.3). -/
def heapRel (a b : ℚ × ℕ) : Prop := b.1 < a.1 ∨ (a.1 = b.1 ∧ a.2 ≤ b.2)

instance : DecidableRel heapRel := fun a b => by unfold heapRel; infer_instance

instance : IsTotal (ℚ × ℕ) heapRel := by
  constructor
  intro a b
  rcases lt_trichotomy a.1 b.1 with h | h | h
  · exact Or.inr (Or.inl h)
  · rcases le_total a.2 b.2 with h2 | h2
    · exact Or.inl (Or.inr ⟨h, h2⟩)
    · exact Or.inr (Or.inr ⟨h.symm, h2⟩)
  · exact Or.inl (Or.inl h)

instance : IsTrans (ℚ × ℕ) heapRel := by
  constructor
  intro a b c hab hbc
  rcases hab with h1 | ⟨h1, h1i⟩ <;> rcases hbc with h2 | ⟨h2, h2i⟩
  · exact Or.inl (lt_trans h2 h1)
  · exact Or.inl (h2 ▸ h1)
  · exact Or.inl (h1 ▸ h2)
  · exact Or.inr ⟨h1.trans h2, h1i.trans h2i⟩

/-- Modelled from the spec: `sortDecreasingHeap` finalises the container as a
descending array (§4.3). -/
def sortDecreasingHeap (l : List (ℚ × ℕ)) : List (ℚ × ℕ) :=
  l.insertionSort heapRel

lemma heapMinMeasure_le (l : List (ℚ × ℕ)) : ∀ p ∈ l, heapMinMeasure l ≤ p.1 := by
  induction l with
  | nil => intro p hp; exact absurd hp (List.not_mem_nil p)
  | cons a t ih =>
    intro p hp
    cases t with
    | nil =>
      rcases List.mem_cons.mp hp with rfl | h
      · exact le_rfl
      · exact absurd h (List.not_mem_nil p)
    | cons b t2 =>
      rcases List.mem_cons.mp hp with rfl | h
      · exact min_le_left _ _
      · exact le_trans (min_le_right _ _) (ih p h)

lemma heapEraseMinAux_subset (m : ℚ) (l : List (ℚ × ℕ)) :
    ∀ p ∈ heapEraseMinAux m l, p ∈ l := by
  induction l with
  | nil => intro p hp; exact absurd hp (List.not_mem_nil p)
  | cons a t ih =>
    intro p hp
    by_cases ha : a.1 = m
    · rw [heapEraseMinAux, if_pos ha] at hp
      exact List.mem_cons_of_mem a hp
    · rw [heapEraseMinAux, if_neg ha] at hp
      rcases List.mem_cons.mp hp with rfl | h
      · exact List.mem_cons_self _ _
      · exact List.mem_cons_of_mem a (ih p h)

lemma mem_heapEraseMinAux (m : ℚ) (l : List (ℚ × ℕ)) :
    ∀ p ∈ l, p.1 ≠ m → p ∈ heapEraseMinAux m l := by
  induction l with
  | nil => intro p hp; exact absurd hp (List.not_mem_nil p)
  | cons a t ih =>
    intro p hp hne
    by_cases ha : a.1 = m
    · rw [heapEraseMinAux, if_pos ha]
      rcases List.mem_cons.mp hp with rfl | h
      · exact absurd ha hne
      · exact h
    · rw [heapEraseMinAux, if_neg ha]
      rcases List.mem_cons.mp hp with rfl | h
      · exact List.mem_cons_self _ _
      · exact List.mem_cons_of_mem a (ih p h hne)

lemma addToDecreasingHeap_cases (K : ℕ) (heap : List (ℚ × ℕ)) (m : ℚ) (id : ℕ) :
    ∀ p ∈ addToDecreasingHeap K heap m id, p = (m, id) ∨ p ∈ heap := by
  intro p hp
  unfold addToDecreasingHeap at hp
  by_cases hlen : heap.length < K
  · rw [if_pos hlen] at hp
    rcases List.mem_cons.mp hp with rfl | h
    · exact Or.inl rfl
    · exact Or.inr h
  · rw [if_neg hlen] at hp
    by_cases hrep : heapMinMeasure heap < m
    · rw [if_pos hrep] at hp
      rcases List.mem_cons.mp hp with rfl | h
      · exact Or.inl rfl
      · exact Or.inr (heapEraseMinAux_subset _ _ p h)
    · rw [if_neg hrep] at hp
      exact Or.inr hp

lemma addToDecreasingHeap_ne_nil (K : ℕ) (hK : 1 ≤ K) (heap : List (ℚ × ℕ))
    (m : ℚ) (id : ℕ) : addToDecreasingHeap K heap m id ≠ [] := by
  unfold addToDecreasingHeap
  by_cases hlen : heap.length < K
  · simp [hlen]
  · rw [if_neg hlen]
    by_cases hrep : heapMinMeasure heap < m
    · simp [hrep]
    · rw [if_neg hrep]
      intro hcon
      rw [hcon] at hlen
      simp at hlen
      omega

/-- One step of the heap-building scan in the initialise branch of
`HEkkPrimal::chooseColumn` (hyper_sparse = true, HEkkPrimal.cpp:711-742):
a variable whose dual infeasibility beats the tolerance is offered to the
top-K heap with its measure. -/
def buildHeapStep (K : ℕ) (tol : ℚ) (weight inf : ℕ → ℚ) (heap : List (ℚ × ℕ))
    (v : ℕ) : List (ℚ × ℕ) :=
  if tol < inf v then addToDecreasingHeap K heap (inf v / weight v) v else heap

def buildHeapScan (K : ℕ) (tol : ℚ) (weight inf : ℕ → ℚ) (l : List ℕ)
    (heap : List (ℚ × ℕ)) : List (ℚ × ℕ) :=
  l.foldl (buildHeapStep K tol weight inf) heap

lemma buildHeapScan_cons (K : ℕ) (tol : ℚ) (weight inf : ℕ → ℚ) (v : ℕ)
    (t : List ℕ) (heap : List (ℚ × ℕ)) :
    buildHeapScan K tol weight inf (v :: t) heap
      = buildHeapScan K tol weight inf t (buildHeapStep K tol weight inf heap v) := rfl

/-- The coupling invariant between the candidate heap built by the
hyper-sparse initialise branch and the running best of the full CHUZC scan
over the same variables: heap entries record true measures of tolerated
candidates, no entry beats the running best, the heap is empty exactly when
no candidate has been seen, and the running best is attained on the heap. -/
def HeapBestInv (numTot : ℕ) (freeEntries : List ℕ) (dual : ℕ → ℚ)
    (move : ℕ → ℤ) (weight : ℕ → ℚ) (tol : ℚ) (heap : List (ℚ × ℕ))
    (st : ℤ × ℚ) : Prop :=
  (∀ p ∈ heap, p.2 < numTot ∧ tol < dualInfOf freeEntries dual move p.2 ∧
    p.1 = dualInfOf freeEntries dual move p.2 / weight p.2) ∧
  (∀ p ∈ heap, p.1 ≤ st.2) ∧
  (heap = [] ↔ st.1 = -1) ∧
  (heap ≠ [] → ∃ p ∈ heap, p.1 = st.2) ∧
  (st.1 = -1 → st.2 = 0)

lemma heapBestInv_step (K numTot : ℕ) (freeEntries : List ℕ) (dual : ℕ → ℚ)
    (move : ℕ → ℤ) (weight : ℕ → ℚ) (tol : ℚ) (inf : ℕ → ℚ) (hK : 1 ≤ K)
    (htol : 0 ≤ tol) (hw : ∀ v, 0 < weight v) (v : ℕ)
    (hv : tol < inf v → v < numTot ∧ inf v = dualInfOf freeEntries dual move v)
    (heap : List (ℚ × ℕ)) (st : ℤ × ℚ)
    (h : HeapBestInv numTot freeEntries dual move weight tol heap st) :
    HeapBestInv numTot freeEntries dual move weight tol
      (buildHeapStep K tol weight inf heap v) (chuzcStep tol weight inf st v) := by
  obtain ⟨h1, h2, h3, h4, h5⟩ := h
  by_cases hvt : tol < inf v
  case neg =>
    rw [show buildHeapStep K tol weight inf heap v = heap by simp [buildHeapStep, hvt],
      show chuzcStep tol weight inf st v = st by simp [chuzcStep, hvt]]
    exact ⟨h1, h2, h3, h4, h5⟩
  case pos =>
  obtain ⟨hvlt, hveq⟩ := hv hvt
  have hm0 : 0 < inf v / weight v := div_pos (lt_of_le_of_lt htol hvt) (hw v)
  have hb : buildHeapStep K tol weight inf heap v
      = addToDecreasingHeap K heap (inf v / weight v) v := by
    simp [buildHeapStep, hvt]
  have helem : ((inf v / weight v, v) : ℚ × ℕ).2 < numTot ∧
      tol < dualInfOf freeEntries dual move ((inf v / weight v, v) : ℚ × ℕ).2 ∧
      ((inf v / weight v, v) : ℚ × ℕ).1
        = dualInfOf freeEntries dual move ((inf v / weight v, v) : ℚ × ℕ).2
          / weight ((inf v / weight v, v) : ℚ × ℕ).2 := by
    exact ⟨hvlt, hveq ▸ hvt, by simp [← hveq]⟩
  by_cases hbeat : st.2 * weight v < inf v
  · -- the incoming candidate beats the running best
    have hs : chuzcStep tol weight inf st v = ((v : ℤ), inf v / weight v) := by
      simp [chuzcStep, hvt, hbeat]
    have hlt : st.2 < inf v / weight v := (lt_div_iff₀ (hw v)).mpr hbeat
    have hmem : ((inf v / weight v, v) : ℚ × ℕ) ∈
        addToDecreasingHeap K heap (inf v / weight v) v := by
      unfold addToDecreasingHeap
      by_cases hlen : heap.length < K
      · rw [if_pos hlen]; exact List.mem_cons_self _ _
      · rw [if_neg hlen]
        have hne : heap ≠ [] := by
          intro hcon; rw [hcon] at hlen; simp at hlen; omega
        obtain ⟨p, hp, hpe⟩ := h4 hne
        have : heapMinMeasure heap < inf v / weight v :=
          lt_of_le_of_lt (hpe ▸ heapMinMeasure_le heap p hp) hlt
        rw [if_pos this]
        exact List.mem_cons_self _ _
    rw [hb, hs]
    refine ⟨?_, ?_, ?_, ?_, ?_⟩
    · intro p hp
      rcases addToDecreasingHeap_cases K heap (inf v / weight v) v p hp with rfl | hph
      · exact helem
      · exact h1 p hph
    · intro p hp
      rcases addToDecreasingHeap_cases K heap (inf v / weight v) v p hp with rfl | hph
      · exact le_rfl
      · exact le_of_lt (lt_of_le_of_lt (h2 p hph) hlt)
    · constructor
      · intro hcon
        exact absurd (hcon ▸ hmem) (List.not_mem_nil _)
      · intro hcon; simp at hcon
    · intro _
      exact ⟨(inf v / weight v, v), hmem, rfl⟩
    · intro hcon; simp at hcon
  · -- the candidate does not beat the running best
    have hs : chuzcStep tol weight inf st v = st := by
      simp [chuzcStep, hbeat]
    have hle : inf v / weight v ≤ st.2 := (div_le_iff₀ (hw v)).mpr (not_lt.mp hbeat)
    have hst2 : 0 < st.2 := lt_of_lt_of_le hm0 hle
    have hstne : st.1 ≠ -1 := fun hcon => absurd (h5 hcon ▸ hst2) (lt_irrefl 0)
    have hne : heap ≠ [] := fun hcon => hstne (h3.mp hcon)
    rw [hb, hs]
    have hsubinv : ∀ p ∈ addToDecreasingHeap K heap (inf v / weight v) v,
        (p.2 < numTot ∧ tol < dualInfOf freeEntries dual move p.2 ∧
          p.1 = dualInfOf freeEntries dual move p.2 / weight p.2) ∧ p.1 ≤ st.2 := by
      intro p hp
      rcases addToDecreasingHeap_cases K heap (inf v / weight v) v p hp with rfl | hph
      · exact ⟨helem, hle⟩
      · exact ⟨h1 p hph, h2 p hph⟩
    refine ⟨fun p hp => (hsubinv p hp).1, fun p hp => (hsubinv p hp).2, ?_, ?_, h5⟩
    · constructor
      · intro hcon
        exact absurd hcon (addToDecreasingHeap_ne_nil K hK heap (inf v / weight v) v)
      · intro hcon; exact absurd hcon hstne
    · intro _
      obtain ⟨p, hp, hpe⟩ := h4 hne
      refine ⟨p, ?_, hpe⟩
      unfold addToDecreasingHeap
      by_cases hlen : heap.length < K
      · rw [if_pos hlen]; exact List.mem_cons_of_mem _ hp
      · rw [if_neg hlen]
        by_cases hrep : heapMinMeasure heap < inf v / weight v
        · rw [if_pos hrep]
          refine List.mem_cons_of_mem _ (mem_heapEraseMinAux _ heap p hp ?_)
          intro hcon
          exact absurd (hpe ▸ (hcon ▸ lt_of_lt_of_le hrep hle)) (lt_irrefl _)
        · rw [if_neg hrep]; exact hp

lemma buildHeapScan_inv (K numTot : ℕ) (freeEntries : List ℕ) (dual : ℕ → ℚ)
    (move : ℕ → ℤ) (weight : ℕ → ℚ) (tol : ℚ) (inf : ℕ → ℚ) (hK : 1 ≤ K)
    (htol : 0 ≤ tol) (hw : ∀ v, 0 < weight v) (l : List ℕ)
    (hl : ∀ v ∈ l, tol < inf v →
      v < numTot ∧ inf v = dualInfOf freeEntries dual move v)
    (heap : List (ℚ × ℕ)) (st : ℤ × ℚ)
    (h : HeapBestInv numTot freeEntries dual move weight tol heap st) :
    HeapBestInv numTot freeEntries dual move weight tol
      (buildHeapScan K tol weight inf l heap) (chuzcScan tol weight inf l st) := by
  induction l generalizing heap st with
  | nil => exact h
  | cons v t ih =>
    rw [buildHeapScan_cons, chuzcScan_cons]
    exact ih (fun w hw2 => hl w (List.mem_cons_of_mem v hw2)) _ _
      (heapBestInv_step K numTot freeEntries dual move weight tol inf hK htol hw v
        (hl v (List.mem_cons_self v t)) heap st h)

/-- Result of the initialise branch of hyper-sparse CHUZC
(HEkkPrimal.cpp:711-754): the selected variable and its measure, the sorted
candidate heap (slot 1 first) and the recorded non-candidate measure bound. -/
structure HyperChuzcInit where
  variableIn : ℤ
  bestMeasure : ℚ
  candidates : List (ℚ × ℕ)
  maxNonCandidateMeasure : ℚ

/-- The initialise branch of `HEkkPrimal::chooseColumn` (hyper_sparse =
true): scan the nonbasic free columns and then all variables, offering each
tolerated candidate to the top-K heap; sort the heap and choose its first
entry if any. -/
def chooseColumnHyperInit (K numTot : ℕ) (freeEntries : List ℕ)
    (workDual : ℕ → ℚ) (nonbasicMove : ℕ → ℤ) (devexWeight : ℕ → ℚ)
    (tol mncOld : ℚ) : HyperChuzcInit :=
  let heap0 := buildHeapScan K tol devexWeight (fun v => |workDual v|) freeEntries []
  let heap1 := buildHeapScan K tol devexWeight
    (fun v => (-(nonbasicMove v) : ℚ) * workDual v) (List.range numTot) heap0
  match sortDecreasingHeap heap1 with
  | [] => ⟨-1, 0, [], mncOld⟩
  | p :: t => ⟨(p.2 : ℤ), p.1, p :: t, ((p :: t).getLast (List.cons_ne_nil p t)).1⟩

/-- The candidate loop of `HEkkPrimal::hyperChooseColumn`
(HEkkPrimal.cpp:1230-1250): basic candidates are skipped, the others are
offered to the running best with the same tolerance test as full CHUZC. -/
def hyperChooseColumnScan (tol : ℚ) (weight : ℕ → ℚ) (flag : ℕ → ℤ)
    (inf : ℕ → ℚ) (cands : List ℕ) (st : ℤ × ℚ) : ℤ × ℚ :=
  cands.foldl
    (fun s iCol => if flag iCol = 0 then s else chuzcStep tol weight inf s iCol) st

/-- `HEkkPrimal::hyperChooseColumn` (HEkkPrimal.cpp:1217-1275): start from
the best changed measure, scan the sorted candidate heap, raise the
non-candidate bound when the winner moved off the changed column, and accept
the winner only if it is at least the non-candidate bound (`done_next_chuzc`);
returns the selection, the updated bound and the acceptance flag. -/
def hyperChooseColumn (freeEntries : List ℕ) (workDual : ℕ → ℚ)
    (nonbasicMove nonbasicFlag : ℕ → ℤ) (devexWeight : ℕ → ℚ) (tol : ℚ)
    (cands : List (ℚ × ℕ)) (mcv : ℚ) (mcc : ℤ) (mnc : ℚ) :
    (ℤ × ℚ) × ℚ × Bool :=
  let st := hyperChooseColumnScan tol devexWeight nonbasicFlag
    (dualInfOf freeEntries workDual nonbasicMove) (cands.map Prod.snd) (mcc, mcv)
  let mnc2 := if st.1 ≠ mcc then max mcv mnc else mnc
  (st, mnc2, decide (mnc2 ≤ st.2))

/-- `HEkkPrimal::chooseColumn` with hyper_sparse = true
(HEkkPrimal.cpp:706-755): run the incremental selection unless a full
initialisation is pending, and fall back to the full initialisation when the
incremental winner is not accepted. -/
def chooseColumnHyper (K numTot : ℕ) (freeEntries : List ℕ)
    (workDual : ℕ → ℚ) (nonbasicMove nonbasicFlag : ℕ → ℤ)
    (devexWeight : ℕ → ℚ) (tol : ℚ) (initHC : Bool) (cands : List (ℚ × ℕ))
    (mcv : ℚ) (mcc : ℤ) (mnc : ℚ) : ℤ × ℚ :=
  if initHC then
    let r := chooseColumnHyperInit K numTot freeEntries workDual nonbasicMove
      devexWeight tol mnc
    (r.variableIn, r.bestMeasure)
  else
    let res := hyperChooseColumn freeEntries workDual nonbasicMove
      nonbasicFlag devexWeight tol cands mcv mcc mnc
    if res.2.2 then res.1
    else
      let r := chooseColumnHyperInit K numTot freeEntries workDual nonbasicMove
        devexWeight tol mnc
      (r.variableIn, r.bestMeasure)

/-- The measure `HEkkPrimal::chuzc` uses in its hyper-sparse/full
cross-check (HEkkPrimal.cpp:677-683): `|workDual|/devex_weight` of the
selected variable, `0` when no variable was selected. -/
def chuzcCheckMeasure (workDual devexWeight : ℕ → ℚ) (q : ℤ) : ℚ :=
  if 0 ≤ q then |workDual q.toNat| / devexWeight q.toNat else 0

lemma dualInfOf_abs (freeEntries : List ℕ) (dual : ℕ → ℚ) (move : ℕ → ℤ)
    (v : ℕ) (tol : ℚ) (htol : 0 ≤ tol)
    (hmove : move v = -1 ∨ move v = 0 ∨ move v = 1)
    (h : tol < dualInfOf freeEntries dual move v) :
    dualInfOf freeEntries dual move v = |dual v| := by
  unfold dualInfOf at h ⊢
  by_cases hf : v ∈ freeEntries
  · rw [if_pos hf]
  · rw [if_neg hf] at h ⊢
    rcases hmove with h1 | h1 | h1 <;> rw [h1] at h ⊢ <;> push_cast
    · have : 0 < dual v := by
        have := lt_of_le_of_lt htol h
        push_cast at this
        linarith
      rw [abs_of_pos this]; ring
    · exfalso
      have := lt_of_le_of_lt htol h
      push_cast at this
      linarith
    · have : dual v < 0 := by
        have := lt_of_le_of_lt htol h
        push_cast at this
        linarith
      rw [abs_of_neg this]; ring

/-- The result state of full CHUZC itself satisfies the running-state
invariant: either no candidate, or a tolerated candidate with its measure. -/
lemma chooseColumnFull_inv (numTot : ℕ) (freeEntries : List ℕ) (dual : ℕ → ℚ)
    (move : ℕ → ℤ) (weight : ℕ → ℚ) (tol : ℚ) (htol : 0 ≤ tol)
    (hfree_range : ∀ v ∈ freeEntries, v < numTot)
    (hfree_move : ∀ v ∈ freeEntries, move v = 0) :
    ChuzcInv numTot freeEntries dual move weight tol
      (chooseColumnFull numTot freeEntries dual move weight tol) := by
  refine chuzcScan_inv numTot freeEntries dual move weight tol
    (fun v => (-(move v) : ℚ) * dual v) (List.range numTot) ?_ _
    (chuzcScan_inv numTot freeEntries dual move weight tol
      (fun v => |dual v|) freeEntries
      (fun w hwmem _ => ⟨hfree_range w hwmem, by simp [dualInfOf, hwmem]⟩)
      (-1, 0) (Or.inl ⟨rfl, rfl⟩))
  intro w hwmem hwlt
  refine ⟨List.mem_range.mp hwmem, ?_⟩
  by_cases hwf : w ∈ freeEntries
  · exfalso
    have hwlt2 : tol < -((move w : ℤ) : ℚ) * dual w := hwlt
    rw [hfree_move w hwf] at hwlt2
    norm_num at hwlt2
    linarith
  · simp [dualInfOf, hwf]

/-- Any selection state that (a) records a genuine tolerated candidate and
its measure (or records no candidate with best 0), and (b) dominates the
measure of every tolerated variable, agrees with the full CHUZC scan in
selection measure and selectedness. -/
lemma selection_agrees (numTot : ℕ) (freeEntries : List ℕ) (dual : ℕ → ℚ)
    (move : ℕ → ℤ) (weight : ℕ → ℚ) (tol : ℚ) (q : ℤ) (b : ℚ)
    (htol : 0 ≤ tol) (hw : ∀ v, 0 < weight v)
    (hfree_range : ∀ v ∈ freeEntries, v < numTot)
    (hfree_move : ∀ v ∈ freeEntries, move v = 0)
    (hmove : ∀ v, move v = -1 ∨ move v = 0 ∨ move v = 1)
    (hS1 : ChuzcInv numTot freeEntries dual move weight tol (q, b))
    (hS2 : ∀ v, v < numTot → tol < dualInfOf freeEntries dual move v →
      dualInfOf freeEntries dual move v / weight v ≤ b) :
    chuzcCheckMeasure dual weight q
      = chuzcCheckMeasure dual weight
          (chooseColumnFull numTot freeEntries dual move weight tol).1 ∧
    (0 ≤ q ↔ 0 ≤ (chooseColumnFull numTot freeEntries dual move weight tol).1) := by
  obtain ⟨hneg, hmax, _⟩ := chooseColumnFull_spec numTot freeEntries dual move weight
    tol RebuildReason.no htol hw hfree_range hfree_move
  have hfullinv := chooseColumnFull_inv numTot freeEntries dual move weight tol
    htol hfree_range hfree_move
  rcases hS1 with ⟨hq, hb⟩ | ⟨c, hq, hclt, hctol, hcb⟩
  · -- the selection found nothing
    have hq' : q = -1 := hq
    have hb' : b = 0 := hb
    have hfullneg : (chooseColumnFull numTot freeEntries dual move weight tol).1 = -1 := by
      apply hneg.mpr
      intro v hv
      by_contra hcon
      have := hS2 v hv (not_le.mp hcon)
      rw [hb'] at this
      have hpos : 0 < dualInfOf freeEntries dual move v / weight v :=
        div_pos (lt_of_le_of_lt htol (not_le.mp hcon)) (hw v)
      linarith
    rw [hq', hfullneg]
    exact ⟨rfl, Iff.rfl⟩
  · -- the selection found candidate c
    have hq' : q = (c : ℤ) := hq
    have hcb' : b = dualInfOf freeEntries dual move c / weight c := hcb
    have hfull_sel :
        ¬ ((chooseColumnFull numTot freeEntries dual move weight tol).1 = -1) := by
      intro hcon
      exact absurd (hneg.mp hcon c hclt) (not_le.mpr hctol)
    obtain ⟨cf, hcf⟩ : ∃ cf : ℕ,
        (chooseColumnFull numTot freeEntries dual move weight tol).1 = (cf : ℤ) := by
      rcases hfullinv with ⟨hfne, _⟩ | ⟨cf, hcf, _⟩
      · exact absurd hfne hfull_sel
      · exact ⟨cf, hcf⟩
    obtain ⟨hcflt, hcftol, hcfmeas, hcfmax⟩ := hmax cf hcf
    have hle1 : dualInfOf freeEntries dual move cf / weight cf ≤ b :=
      hS2 cf hcflt hcftol
    have hle2 : dualInfOf freeEntries dual move c / weight c
        ≤ dualInfOf freeEntries dual move cf / weight cf := hcfmax c hclt hctol
    have hbeq : b = dualInfOf freeEntries dual move cf / weight cf :=
      le_antisymm (hcb' ▸ hle2) hle1
    constructor
    · rw [hq', hcf]
      unfold chuzcCheckMeasure
      rw [if_pos (by positivity), if_pos (by positivity)]
      simp only [Int.toNat_natCast]
      rw [← dualInfOf_abs freeEntries dual move c tol htol (hmove c) hctol,
        ← dualInfOf_abs freeEntries dual move cf tol htol (hmove cf) hcftol]
      rw [← hcb', hbeq]
    · rw [hq', hcf]
      constructor <;> intro <;> positivity

/-- The best measure reported by full CHUZC dominates the measure of every
tolerated variable. -/
lemma chooseColumnFull_dominates (numTot : ℕ) (freeEntries : List ℕ)
    (dual : ℕ → ℚ) (move : ℕ → ℤ) (weight : ℕ → ℚ) (tol : ℚ)
    (hw : ∀ v, 0 < weight v) :
    ∀ v, v < numTot → tol < dualInfOf freeEntries dual move v →
      dualInfOf freeEntries dual move v / weight v
        ≤ (chooseColumnFull numTot freeEntries dual move weight tol).2 := by
  intro v hv hvtol
  have hfull : chooseColumnFull numTot freeEntries dual move weight tol
      = chuzcScan tol weight (fun w => (-(move w) : ℚ) * dual w) (List.range numTot)
        (chuzcScan tol weight (fun w => |dual w|) freeEntries (-1, 0)) := rfl
  rw [hfull]
  by_cases hvf : v ∈ freeEntries
  · have habs : dualInfOf freeEntries dual move v = |dual v| := by
      simp [dualInfOf, hvf]
    rw [habs]
    exact le_trans
      (chuzcScan_best_ge tol weight (fun w => |dual w|) hw freeEntries (-1, 0) v hvf
        (by rw [habs] at hvtol; exact hvtol))
      (chuzcScan_best_mono tol weight (fun w => (-(move w) : ℚ) * dual w) hw
        (List.range numTot) _)
  · have heq : dualInfOf freeEntries dual move v = (-(move v) : ℚ) * dual v := by
      simp [dualInfOf, hvf]
    rw [heq]
    exact chuzcScan_best_ge tol weight (fun w => (-(move w) : ℚ) * dual w) hw
      (List.range numTot) _ v (List.mem_range.mpr hv) (by rw [heq] at hvtol; exact hvtol)

/-- The initialise branch of hyper-sparse CHUZC selects the same best
measure as full CHUZC, and its selection state satisfies the running-state
invariant. -/
lemma chooseColumnHyperInit_spec (K numTot : ℕ) (freeEntries : List ℕ)
    (dual : ℕ → ℚ) (move : ℕ → ℤ) (weight : ℕ → ℚ) (tol mnc : ℚ)
    (hK : 1 ≤ K) (htol : 0 ≤ tol) (hw : ∀ v, 0 < weight v)
    (hfree_range : ∀ v ∈ freeEntries, v < numTot)
    (hfree_move : ∀ v ∈ freeEntries, move v = 0) :
    ChuzcInv numTot freeEntries dual move weight tol
      ((chooseColumnHyperInit K numTot freeEntries dual move weight tol mnc).variableIn,
       (chooseColumnHyperInit K numTot freeEntries dual move weight tol mnc).bestMeasure) ∧
    (chooseColumnHyperInit K numTot freeEntries dual move weight tol mnc).bestMeasure
      = (chooseColumnFull numTot freeEntries dual move weight tol).2 := by
  set inf1 : ℕ → ℚ := fun v => |dual v| with hinf1
  set inf2 : ℕ → ℚ := fun v => (-(move v) : ℚ) * dual v with hinf2
  set heap1 := buildHeapScan K tol weight inf2 (List.range numTot)
    (buildHeapScan K tol weight inf1 freeEntries []) with hheap1
  set stF := chooseColumnFull numTot freeEntries dual move weight tol with hstF
  have hstF2 : stF = chuzcScan tol weight inf2 (List.range numTot)
      (chuzcScan tol weight inf1 freeEntries (-1, 0)) := rfl
  have hinv : HeapBestInv numTot freeEntries dual move weight tol heap1 stF := by
    rw [hheap1, hstF2]
    refine buildHeapScan_inv K numTot freeEntries dual move weight tol inf2 hK htol hw
      (List.range numTot) ?_ _ _
      (buildHeapScan_inv K numTot freeEntries dual move weight tol inf1 hK htol hw
        freeEntries
        (fun w hwmem _ => ⟨hfree_range w hwmem, by simp [dualInfOf, hwmem, hinf1]⟩)
        [] (-1, 0)
        ⟨fun p hp => absurd hp (List.not_mem_nil p),
         fun p hp => absurd hp (List.not_mem_nil p),
         by simp, fun h => absurd rfl h, fun _ => rfl⟩)
    intro w hwmem hwlt
    refine ⟨List.mem_range.mp hwmem, ?_⟩
    by_cases hwf : w ∈ freeEntries
    · exfalso
      have hwlt2 : tol < -((move w : ℤ) : ℚ) * dual w := hwlt
      rw [hfree_move w hwf] at hwlt2
      norm_num at hwlt2
      linarith
    · simp [dualInfOf, hwf, hinf2]
  obtain ⟨h1, h2, h3, h4, h5⟩ := hinv
  have hperm : List.Perm (sortDecreasingHeap heap1) heap1 :=
    List.perm_insertionSort heapRel heap1
  have hsorted : List.Sorted heapRel (sortDecreasingHeap heap1) :=
    List.sorted_insertionSort heapRel heap1
  cases hsort : sortDecreasingHeap heap1 with
  | nil =>
    have hempty : heap1 = [] := (hsort ▸ hperm).symm.eq_nil
    have hres : chooseColumnHyperInit K numTot freeEntries dual move weight tol mnc
        = ⟨-1, 0, [], mnc⟩ := by
      rw [chooseColumnHyperInit]
      rw [show buildHeapScan K tol weight
          (fun v => (-(move v) : ℚ) * dual v) (List.range numTot)
          (buildHeapScan K tol weight (fun v => |dual v|) freeEntries []) = heap1
          from rfl, hsort]
    rw [hres]
    refine ⟨Or.inl ⟨rfl, rfl⟩, ?_⟩
    have := h5 (h3.mp hempty)
    simp only [hstF] at this
    exact this.symm
  | cons p t =>
    have hpmem : p ∈ heap1 := hperm.subset (hsort ▸ List.mem_cons_self p t)
    have hne : heap1 ≠ [] := by
      intro hcon
      rw [hcon] at hpmem
      exact absurd hpmem (List.not_mem_nil p)
    obtain ⟨pw, hpw, hpwe⟩ := h4 hne
    have hpwmem : pw ∈ p :: t := hsort ▸ hperm.symm.subset hpw
    have hple : pw.1 ≤ p.1 := by
      rcases List.mem_cons.mp hpwmem with rfl | hpwt
      · exact le_rfl
      · have := (hsort ▸ hsorted)
        rcases List.rel_of_sorted_cons this pw hpwt with hrel | ⟨hrel, _⟩
        · exact le_of_lt hrel
        · exact le_of_eq hrel.symm
    have hpe : p.1 = stF.2 := le_antisymm (h2 p hpmem) (hpwe ▸ hple)
    obtain ⟨hplt, hptol, hpmeas⟩ := h1 p hpmem
    have hres : chooseColumnHyperInit K numTot freeEntries dual move weight tol mnc
        = ⟨(p.2 : ℤ), p.1, p :: t, ((p :: t).getLast (List.cons_ne_nil p t)).1⟩ := by
      rw [chooseColumnHyperInit]
      rw [show buildHeapScan K tol weight
          (fun v => (-(move v) : ℚ) * dual v) (List.range numTot)
          (buildHeapScan K tol weight (fun v => |dual v|) freeEntries []) = heap1
          from rfl, hsort]
    rw [hres]
    exact ⟨Or.inr ⟨p.2, rfl, hplt, hptol, hpmeas⟩, hpe⟩

lemma hyperChooseColumnScan_eq_filter (tol : ℚ) (weight : ℕ → ℚ)
    (flag : ℕ → ℤ) (inf : ℕ → ℚ) (cands : List ℕ) (st : ℤ × ℚ) :
    hyperChooseColumnScan tol weight flag inf cands st
      = chuzcScan tol weight inf (cands.filter fun v => decide (flag v ≠ 0)) st := by
  induction cands generalizing st with
  | nil => rfl
  | cons v t ih =>
    by_cases hv : flag v = 0
    · show hyperChooseColumnScan tol weight flag inf t
        (if flag v = 0 then st else chuzcStep tol weight inf st v) = _
      rw [if_pos hv, ih]
      congr 1
      simp [List.filter, hv]
    · show hyperChooseColumnScan tol weight flag inf t
        (if flag v = 0 then st else chuzcStep tol weight inf st v) = _
      rw [if_neg hv, ih]
      rw [show (v :: t).filter (fun w => decide (flag w ≠ 0))
          = v :: t.filter (fun w => decide (flag w ≠ 0)) by simp [List.filter, hv]]
      rfl

/-- C1: whenever hyper-sparse CHUZC is in use and run, the measure
`|workDual[v]|/devex_weight[v]` of the variable it selects equals the
measure of the variable selected by a full CHUZC scan of the same state,
and the hyper-sparse path selects some variable (q ≥ 0) iff the full scan
does.  The hypotheses record the state coherence that the engine maintains
for the incremental path: free-set members are nonbasic with zero move,
basic variables have zero move, the recorded best changed measure is
genuine, and every tolerated variable is covered by the candidate heap, the
non-candidate bound, or the changed column. -/
theorem chuzc_hyper_matches_full (K numTot : ℕ) (freeEntries : List ℕ)
    (workDual : ℕ → ℚ) (nonbasicMove nonbasicFlag : ℕ → ℤ)
    (devexWeight : ℕ → ℚ) (tol : ℚ) (initHC : Bool) (cands : List (ℚ × ℕ))
    (mcv : ℚ) (mcc : ℤ) (mnc : ℚ)
    (hK : 1 ≤ K) (htol : 0 ≤ tol) (hw : ∀ v, 0 < devexWeight v)
    (hfree_range : ∀ v ∈ freeEntries, v < numTot)
    (hfree_move : ∀ v ∈ freeEntries, nonbasicMove v = 0)
    (hmove : ∀ v, nonbasicMove v = -1 ∨ nonbasicMove v = 0 ∨ nonbasicMove v = 1)
    (hcoh : initHC = false →
      (∀ v ∈ freeEntries, nonbasicFlag v ≠ 0) ∧
      (∀ v, nonbasicFlag v = 0 → nonbasicMove v = 0) ∧
      ChuzcInv numTot freeEntries workDual nonbasicMove devexWeight tol (mcc, mcv) ∧
      (∀ p ∈ cands, p.2 < numTot) ∧
      (∀ v, v < numTot → tol < dualInfOf freeEntries workDual nonbasicMove v →
        dualInfOf freeEntries workDual nonbasicMove v / devexWeight v ≤ mnc ∨
        v ∈ cands.map Prod.snd ∨ mcc = (v : ℤ))) :
    chuzcCheckMeasure workDual devexWeight
        (chooseColumnHyper K numTot freeEntries workDual nonbasicMove nonbasicFlag
          devexWeight tol initHC cands mcv mcc mnc).1
      = chuzcCheckMeasure workDual devexWeight
          (chooseColumnFull numTot freeEntries workDual nonbasicMove devexWeight tol).1 ∧
    (0 ≤ (chooseColumnHyper K numTot freeEntries workDual nonbasicMove nonbasicFlag
        devexWeight tol initHC cands mcv mcc mnc).1 ↔
      0 ≤ (chooseColumnFull numTot freeEntries workDual nonbasicMove devexWeight tol).1) := by
  have hinit_agrees :
      chuzcCheckMeasure workDual devexWeight
        (chooseColumnHyperInit K numTot freeEntries workDual nonbasicMove devexWeight
          tol mnc).variableIn
      = chuzcCheckMeasure workDual devexWeight
          (chooseColumnFull numTot freeEntries workDual nonbasicMove devexWeight tol).1 ∧
      (0 ≤ (chooseColumnHyperInit K numTot freeEntries workDual nonbasicMove devexWeight
          tol mnc).variableIn ↔
        0 ≤ (chooseColumnFull numTot freeEntries workDual nonbasicMove devexWeight tol).1) := by
    obtain ⟨hS1, hbest⟩ := chooseColumnHyperInit_spec K numTot freeEntries workDual
      nonbasicMove devexWeight tol mnc hK htol hw hfree_range hfree_move
    refine selection_agrees numTot freeEntries workDual nonbasicMove devexWeight tol
      _ _ htol hw hfree_range hfree_move hmove hS1 ?_
    intro v hv hvtol
    rw [hbest]
    exact chooseColumnFull_dominates numTot freeEntries workDual nonbasicMove
      devexWeight tol hw v hv hvtol
  cases initHC with
  | true =>
    rw [show chooseColumnHyper K numTot freeEntries workDual nonbasicMove nonbasicFlag
        devexWeight tol true cands mcv mcc mnc
        = ((chooseColumnHyperInit K numTot freeEntries workDual nonbasicMove devexWeight
            tol mnc).variableIn,
           (chooseColumnHyperInit K numTot freeEntries workDual nonbasicMove devexWeight
            tol mnc).bestMeasure) from rfl]
    exact hinit_agrees
  | false =>
    obtain ⟨hfree_flag, hbasic, hmcc, hcands, hcover⟩ := hcoh rfl
    set dInf := dualInfOf freeEntries workDual nonbasicMove with hdInf
    set stH := hyperChooseColumnScan tol devexWeight nonbasicFlag dInf
      (cands.map Prod.snd) (mcc, mcv) with hstH
    set flist := (cands.map Prod.snd).filter (fun v => decide (nonbasicFlag v ≠ 0))
      with hflist
    have hstH_eq : stH = chuzcScan tol devexWeight dInf flist (mcc, mcv) := by
      rw [hstH, hflist]
      exact hyperChooseColumnScan_eq_filter tol devexWeight nonbasicFlag dInf
        (cands.map Prod.snd) (mcc, mcv)
    have hflist_range : ∀ v ∈ flist, v < numTot := by
      intro v hv
      have hv2 : v ∈ cands.map Prod.snd := List.mem_of_mem_filter hv
      obtain ⟨p, hp, hpe⟩ := List.mem_map.mp hv2
      exact hpe ▸ hcands p hp
    have hS1 : ChuzcInv numTot freeEntries workDual nonbasicMove devexWeight tol stH := by
      rw [hstH_eq]
      exact chuzcScan_inv numTot freeEntries workDual nonbasicMove devexWeight tol
        dInf flist (fun v hv _ => ⟨hflist_range v hv, rfl⟩) (mcc, mcv) hmcc
    set mnc2 := if stH.1 ≠ mcc then max mcv mnc else mnc with hmnc2
    have hmnc_le : mnc ≤ mnc2 := by
      rw [hmnc2]
      by_cases hcc : stH.1 ≠ mcc
      · rw [if_pos hcc]; exact le_max_right _ _
      · rw [if_neg hcc]
    have hS2 : mnc2 ≤ stH.2 →
        ∀ v, v < numTot → tol < dInf v → dInf v / devexWeight v ≤ stH.2 := by
      intro hacc v hv hvtol
      rcases hcover v hv hvtol with hle | hmem | hceq
      · exact le_trans hle (le_trans hmnc_le hacc)
      · by_cases hfv : nonbasicFlag v = 0
        · exfalso
          have hmv : nonbasicMove v = 0 := hbasic v hfv
          have hvnf : v ∉ freeEntries := fun hcon => hfree_flag v hcon hfv
          have : dInf v = 0 := by
            rw [hdInf]
            unfold dualInfOf
            rw [if_neg hvnf, hmv]
            norm_num
          rw [this] at hvtol
          exact absurd hvtol (not_lt.mpr htol)
        · have hvf2 : v ∈ flist := by
            rw [hflist]
            exact List.mem_filter.mpr ⟨hmem, by simpa using hfv⟩
          rw [hstH_eq]
          exact chuzcScan_best_ge tol devexWeight dInf hw flist (mcc, mcv) v hvf2 hvtol
      · have hmeq : mcv = dInf v / devexWeight v := by
          rcases hmcc with ⟨hc1, _⟩ | ⟨c, hc1, _, _, hc4⟩
          · exfalso
            have : (mcc : ℤ) = -1 := hc1
            omega
          · have hcv : c = v := by
              have h1 : (mcc : ℤ) = (c : ℤ) := hc1
              omega
            have : mcv = dInf c / devexWeight c := hc4
            rw [hcv] at this
            exact this
        rw [← hmeq, hstH_eq]
        exact le_trans (le_of_eq rfl)
          (chuzcScan_best_mono tol devexWeight dInf hw flist (mcc, mcv))
    have hred : chooseColumnHyper K numTot freeEntries workDual nonbasicMove
        nonbasicFlag devexWeight tol false cands mcv mcc mnc
        = (if (decide (mnc2 ≤ stH.2) : Bool) then stH
           else ((chooseColumnHyperInit K numTot freeEntries workDual nonbasicMove
              devexWeight tol mnc).variableIn,
             (chooseColumnHyperInit K numTot freeEntries workDual nonbasicMove
              devexWeight tol mnc).bestMeasure)) := rfl
    by_cases hacc : mnc2 ≤ stH.2
    · rw [hred, if_pos (by simpa using hacc)]
      have := selection_agrees numTot freeEntries workDual nonbasicMove devexWeight tol
        stH.1 stH.2 htol hw hfree_range hfree_move hmove hS1 (hS2 hacc)
      exact this
    · rw [hred, if_neg (by simpa using hacc)]
      exact hinit_agrees

/-- Witness for C1: one variable at its lower bound with reduced cost −5,
hyper-sparse CHUZC pending a full initialisation (capacity 10, unit
weights, tolerance 1/2). -/
theorem chuzc_hyper_matches_full_witness :
    ((1:ℕ) ≤ 10 ∧ (0:ℚ) ≤ 1/2 ∧ (∀ v : ℕ, (0:ℚ) < (fun _ => (1:ℚ)) v) ∧
     (∀ v : ℕ, (fun _ => (1:ℤ)) v = -1 ∨ (fun _ => (1:ℤ)) v = 0 ∨
        (fun _ => (1:ℤ)) v = 1)) ∧
    (chuzcCheckMeasure (fun _ => (-5:ℚ)) (fun _ => (1:ℚ))
        (chooseColumnHyper 10 1 [] (fun _ => (-5:ℚ)) (fun _ => (1:ℤ))
          (fun _ => (1:ℤ)) (fun _ => (1:ℚ)) (1/2) true [] 0 (-1) 0).1
      = chuzcCheckMeasure (fun _ => (-5:ℚ)) (fun _ => (1:ℚ))
          (chooseColumnFull 1 [] (fun _ => (-5:ℚ)) (fun _ => (1:ℤ))
            (fun _ => (1:ℚ)) (1/2)).1 ∧
     (0 ≤ (chooseColumnHyper 10 1 [] (fun _ => (-5:ℚ)) (fun _ => (1:ℤ))
          (fun _ => (1:ℤ)) (fun _ => (1:ℚ)) (1/2) true [] 0 (-1) 0).1 ↔
       0 ≤ (chooseColumnFull 1 [] (fun _ => (-5:ℚ)) (fun _ => (1:ℤ))
          (fun _ => (1:ℚ)) (1/2)).1)) :=
  ⟨⟨by norm_num, by norm_num, fun v => by norm_num, fun v => Or.inr (Or.inr rfl)⟩,
   chuzc_hyper_matches_full 10 1 [] (fun _ => (-5:ℚ)) (fun _ => (1:ℤ))
     (fun _ => (1:ℤ)) (fun _ => (1:ℚ)) (1/2) true [] 0 (-1) 0
     (by norm_num) (by norm_num) (fun v => by norm_num)
     (fun v hv => absurd hv (List.not_mem_nil v))
     (fun v hv => absurd hv (List.not_mem_nil v))
     (fun v => Or.inr (Or.inr rfl))
     (fun h => absurd h (by decide))⟩

/-! ## Phase-1 ratio test (HEkkPrimal::phase1ChooseRow) -/

/-- The strict-weak order std::sort applies to the `(theta, signed_row)`
pairs of the phase-1 sorter lists: lexicographic on the pair. -/
def sorterRel (a b : ℚ × ℤ) : Prop := a.1 < b.1 ∨ (a.1 = b.1 ∧ a.2 ≤ b.2)

instance : DecidableRel sorterRel := fun a b => by unfold sorterRel; infer_instance

/-- The pivot tolerance of CHUZR (both phases): 1e-9 below 10 updates,
1e-8 below 20, 1e-7 beyond. -/
def chuzrPivotTol (updateCount : ℕ) : ℚ :=
  if updateCount < 10 then 1 / 10 ^ 9
  else if updateCount < 20 then 1 / 10 ^ 8 else 1 / 10 ^ 7

/-- The loop of HEkkPrimal.cpp:839-888 collecting the phase-1 breakpoint
lists (R, T): rows whose basic variable can become feasible contribute one
breakpoint keyed by the row, rows that can become infeasible again
contribute a relaxed/tight pair keyed by `row − num_row`. -/
def phase1Lists (numRow : ℕ) (colAqIndex : List ℕ) (colAq : ℕ → ℚ)
    (baseLower baseUpper baseValue : ℕ → ℚ) (moveIn : ℤ) (updateCount : ℕ)
    (pft : ℚ) : List (ℚ × ℤ) × List (ℚ × ℤ) :=
  let dPivotTol := chuzrPivotTol updateCount
  colAqIndex.foldl
    (fun acc iRow =>
      let dAlpha := colAq iRow * (moveIn : ℚ)
      let acc1 :=
        if dPivotTol < dAlpha then
          let acc2 :=
            if baseUpper iRow + pft < baseValue iRow then
              (acc.1 ++ [((baseValue iRow - baseUpper iRow - pft) / dAlpha, (iRow : ℤ))],
               acc.2 ++ [((baseValue iRow - baseUpper iRow - pft) / dAlpha, (iRow : ℤ))])
            else acc
          if baseLower iRow - pft < baseValue iRow ∧ -HIGHS_CONST_INF < baseLower iRow then
            (acc2.1 ++ [((baseValue iRow - baseLower iRow + pft) / dAlpha,
                (iRow : ℤ) - (numRow : ℤ))],
             acc2.2 ++ [((baseValue iRow - baseLower iRow) / dAlpha,
                (iRow : ℤ) - (numRow : ℤ))])
          else acc2
        else acc
      if dAlpha < -dPivotTol then
        let acc2 :=
          if baseValue iRow < baseLower iRow - pft then
            (acc1.1 ++ [((baseValue iRow - baseLower iRow + pft) / dAlpha,
                (iRow : ℤ) - (numRow : ℤ))],
             acc1.2 ++ [((baseValue iRow - baseLower iRow + pft) / dAlpha,
                (iRow : ℤ) - (numRow : ℤ))])
          else acc1
        if baseValue iRow < baseUpper iRow + pft ∧ baseUpper iRow < HIGHS_CONST_INF then
          (acc2.1 ++ [((baseValue iRow - baseUpper iRow - pft) / dAlpha, (iRow : ℤ))],
           acc2.2 ++ [((baseValue iRow - baseUpper iRow) / dAlpha, (iRow : ℤ))])
        else acc2
      else acc1)
    ([], [])

/-- Decode the row index from a signed sorter entry (`index >= 0 ? index :
index + num_row`). -/
def sorterRow (numRow : ℕ) (idx : ℤ) : ℕ :=
  if 0 ≤ idx then idx.toNat else (idx + (numRow : ℤ)).toNat

/-- The gradient walk over the sorted relaxed list (HEkkPrimal.cpp:904-916):
decrease the gradient by `|a_q|` at each breakpoint and stop at the first
point where it is no longer positive, keeping the previous theta. -/
def phase1WalkR (numRow : ℕ) (colAq : ℕ → ℚ) : ℚ → ℚ → List (ℚ × ℤ) → ℚ
  | maxTheta, _, [] => maxTheta
  | maxTheta, grad, p :: rest =>
    let grad2 := grad - |colAq (sorterRow numRow p.2)|
    if grad2 ≤ 0 then maxTheta
    else phase1WalkR numRow colAq p.1 grad2 rest

/-- The maximal pivot magnitude among tight breakpoints within the chosen
step (HEkkPrimal.cpp:919-936). -/
def phase1MaxAlpha (numRow : ℕ) (colAq : ℕ → ℚ) (prefixT : List (ℚ × ℤ)) : ℚ :=
  prefixT.foldl (fun m p => max m |colAq (sorterRow numRow p.2)|) 0

/-- The backward pass over the admitted tight breakpoints
(HEkkPrimal.cpp:938-951): accept the first row (from the end) whose pivot
magnitude is above a tenth of the best; returns `(row_out, move_out)`. -/
def phase1Backward (numRow : ℕ) (colAq : ℕ → ℚ) (maxAlpha : ℚ) :
    List (ℚ × ℤ) → ℤ × ℤ
  | [] => (-1, 0)
  | p :: rest =>
    if maxAlpha * (1 / 10) < |colAq (sorterRow numRow p.2)| then
      ((sorterRow numRow p.2 : ℤ), if 0 ≤ p.2 then 1 else -1)
    else phase1Backward numRow colAq maxAlpha rest

/-- Result of `HEkkPrimal::phase1ChooseRow`. -/
structure Phase1ChooseRowResult where
  rowOut : ℤ
  variableOut : ℤ
  moveOut : ℤ
  deriving DecidableEq, Repr

/-- `HEkkPrimal::phase1ChooseRow` (HEkkPrimal.cpp:825-953): collect the
breakpoint lists; when the relaxed list is empty report no leaving row
(row_out = −1, move_out keeps its prior value); otherwise sort both lists,
run the gradient walk for the step bound, find the best pivot magnitude
among tight breakpoints inside the bound, and take the last acceptable
row. -/
def phase1ChooseRow (numRow : ℕ) (colAqIndex : List ℕ) (colAq : ℕ → ℚ)
    (baseLower baseUpper baseValue : ℕ → ℚ) (moveIn : ℤ) (updateCount : ℕ)
    (pft thetaDual : ℚ) (moveOut0 : ℤ) : Phase1ChooseRowResult :=
  let lists := phase1Lists numRow colAqIndex colAq baseLower baseUpper baseValue
    moveIn updateCount pft
  if lists.1 = [] then ⟨-1, -1, moveOut0⟩
  else
    let sortedR := lists.1.insertionSort sorterRel
    let maxTheta :=
      match sortedR with
      | [] => 0
      | p :: rest => phase1WalkR numRow colAq p.1 |thetaDual| (p :: rest)
    let sortedT := lists.2.insertionSort sorterRel
    let prefixT := sortedT.takeWhile (fun p => decide (p.1 ≤ maxTheta))
    let maxAlpha := phase1MaxAlpha numRow colAq prefixT
    let sel := phase1Backward numRow colAq maxAlpha prefixT.reverse
    ⟨sel.1, -1, sel.2⟩

/-- The CHUZR stage of `HEkkPrimal::iterate` (HEkkPrimal.cpp:603-614): in
Phase 1 a missing leaving row is a hard error that sets
`SOLVE_PHASE_ERROR` and stops the iteration; in Phase 2 `chooseRow` runs
and a missing leaving row is not trapped.  The Bool says whether the
iteration continues. -/
def iterateChuzr (solvePhase : SolvePhase) (rowOut : ℤ) : SolvePhase × Bool :=
  if solvePhase = SolvePhase.phase1 then
    if rowOut < 0 then (SolvePhase.phaseError, false) else (solvePhase, true)
  else (solvePhase, true)

/-- C9: if the phase-1 ratio test builds an empty breakpoint list R it
reports `row_out = −1` (and `variable_out = −1`), and in Phase 1 the
iteration treats `row_out < 0` as a hard error, setting
`SOLVE_PHASE_ERROR` and stopping; a negative `row_out` is left untrapped
(valid) only in Phase 2. -/
theorem phase1ChooseRow_empty_spec (numRow : ℕ) (colAqIndex : List ℕ)
    (colAq : ℕ → ℚ) (baseLower baseUpper baseValue : ℕ → ℚ) (moveIn : ℤ)
    (updateCount : ℕ) (pft thetaDual : ℚ) (moveOut0 : ℤ)
    (hempty : (phase1Lists numRow colAqIndex colAq baseLower baseUpper baseValue
      moveIn updateCount pft).1 = []) :
    (phase1ChooseRow numRow colAqIndex colAq baseLower baseUpper baseValue moveIn
      updateCount pft thetaDual moveOut0).rowOut = -1 ∧
    (phase1ChooseRow numRow colAqIndex colAq baseLower baseUpper baseValue moveIn
      updateCount pft thetaDual moveOut0).variableOut = -1 ∧
    iterateChuzr SolvePhase.phase1
      (phase1ChooseRow numRow colAqIndex colAq baseLower baseUpper baseValue moveIn
        updateCount pft thetaDual moveOut0).rowOut
      = (SolvePhase.phaseError, false) ∧
    (∀ r : ℤ, r < 0 → iterateChuzr SolvePhase.phase2 r = (SolvePhase.phase2, true)) := by
  have hres : phase1ChooseRow numRow colAqIndex colAq baseLower baseUpper baseValue
      moveIn updateCount pft thetaDual moveOut0 = ⟨-1, -1, moveOut0⟩ := by
    unfold phase1ChooseRow
    simp [hempty]
  rw [hres]
  refine ⟨rfl, rfl, by simp [iterateChuzr], ?_⟩
  intro r hr
  simp [iterateChuzr]

/-- Witness for C9: a single-row pivot column whose entry is below the
pivot tolerance, so no breakpoint is generated. -/
theorem phase1ChooseRow_empty_spec_witness :
    (phase1Lists 1 [0] (fun _ => 0) (fun _ => 0) (fun _ => 0) (fun _ => 0)
      1 0 (1/1000)).1 = [] ∧
    (phase1ChooseRow 1 [0] (fun _ => 0) (fun _ => 0) (fun _ => 0) (fun _ => 0)
      1 0 (1/1000) 0 0).rowOut = -1 := by
  have hempty : (phase1Lists 1 [0] (fun _ => (0:ℚ)) (fun _ => 0) (fun _ => 0)
      (fun _ => 0) 1 0 (1/1000)).1 = [] := by
    unfold phase1Lists chuzrPivotTol
    norm_num
  exact ⟨hempty, (phase1ChooseRow_empty_spec 1 [0] (fun _ => 0) (fun _ => 0)
    (fun _ => 0) (fun _ => 0) 1 0 (1/1000) 0 0 hempty).1⟩

/-! ## Phase-2 exit handling (HEkkPrimal::solvePhase2) -/

/-- The exit handling at the end of `HEkkPrimal::solvePhase2`
(HEkkPrimal.cpp:380-435), after the rebuild/iterate loops have finished.
Inputs: the solve phase on leaving the loops, `variable_in`, `row_out`,
whether bounds have been perturbed, the incoming scaled model status, and
the number of primal infeasibilities that cleanup would report when it
runs in the CHUZC-empty branch.  Returns (solvePhase, scaled_model_status,
whether cleanup ran).  Note: the source's trailing assignment at line 433
sets `scaled_model_status = PRIMAL_UNBOUNDED` on both sides of the
perturbation test in the CHUZR-empty branch. -/
def solvePhase2Exit (solvePhase : SolvePhase) (variableIn _rowOut : ℤ)
    (boundsPerturbed : Bool) (statusIn : ModelStatus)
    (numInfeasAfterCleanup : ℕ) : SolvePhase × ModelStatus × Bool :=
  if solvePhase = SolvePhase.phase1 then (solvePhase, statusIn, false)
  else if variableIn = -1 then
    -- no candidate in CHUZC even after rebuild: remove perturbations
    if 0 < numInfeasAfterCleanup then (SolvePhase.phaseCleanup, statusIn, true)
    else (SolvePhase.phaseOptimal, ModelStatus.optimal, true)
  else
    -- no candidate in CHUZR (row_out < 0): possibly primal unbounded
    let afterBranch : SolvePhase × ModelStatus × Bool :=
      if boundsPerturbed then (solvePhase, statusIn, true)
      else
        (SolvePhase.phaseExit,
         if statusIn = ModelStatus.primalInfeasible then
           ModelStatus.primalDualInfeasible
         else ModelStatus.primalUnbounded,
         false)
    -- the trailing unconditional assignment (HEkkPrimal.cpp:433)
    (afterBranch.1, ModelStatus.primalUnbounded, afterBranch.2.2)

/-- C3 (code bug): with bounds perturbed, the CHUZR-empty branch runs
cleanup and does not exit — but the trailing assignment still reports
`scaled_model_status = PRIMAL_UNBOUNDED`, contrary to the specified
behaviour; without perturbation the branch exits with `PRIMAL_UNBOUNDED`
as specified. -/
theorem solvePhase2Exit_perturbed_still_reports_unbounded :
    solvePhase2Exit SolvePhase.phase2 0 (-1) true ModelStatus.notset 0
      = (SolvePhase.phase2, ModelStatus.primalUnbounded, true) ∧
    solvePhase2Exit SolvePhase.phase2 0 (-1) false ModelStatus.notset 0
      = (SolvePhase.phaseExit, ModelStatus.primalUnbounded, false) := by
  constructor <;> rfl

/-! ## The iteration engine state and the update path
(HEkkPrimal::considerBoundSwap, assessPivot/updateVerify, update and its
helpers).  External collaborators (FTRAN/BTRAN/PRICE, the basis
factorization bookkeeping and the density-driven loop-style choice) are
taken as parameters. -/

/-- The mutable state of the primal simplex engine visible to the update
path: the simplex-info working arrays, the basis arrays, the engine's
per-iteration locals, the Devex data, the packed vectors (index list plus
dense array) and the hyper-CHUZC scratch. -/
structure EkkState where
  numCol : ℕ
  numRow : ℕ
  solvePhase : SolvePhase
  workLower : ℕ → ℚ
  workUpper : ℕ → ℚ
  workLowerShift : ℕ → ℚ
  workUpperShift : ℕ → ℚ
  workValue : ℕ → ℚ
  workCost : ℕ → ℚ
  workDual : ℕ → ℚ
  baseLower : ℕ → ℚ
  baseUpper : ℕ → ℚ
  baseValue : ℕ → ℚ
  numTotRandomValue : ℕ → ℚ
  numPrimalInfeasibilities : ℤ
  updatedPrimalObjectiveValue : ℚ
  updateCount : ℕ
  updateLimit : ℕ
  primalBoundSwap : ℕ
  boundsPerturbed : Bool
  allowBoundPerturbation : Bool
  nonbasicFlag : ℕ → ℤ
  nonbasicMove : ℕ → ℤ
  basicIndex : ℕ → ℕ
  iterationCount : ℕ
  variableIn : ℤ
  variableOut : ℤ
  rowOut : ℤ
  moveIn : ℤ
  moveOut : ℤ
  thetaPrimal : ℚ
  thetaDual : ℚ
  valueIn : ℚ
  alphaCol : ℚ
  alphaRow : ℚ
  numericalTrouble : ℚ
  rebuildReason : RebuildReason
  numFlipSinceRebuild : ℕ
  primalFeasTol : ℚ
  dualFeasTol : ℚ
  devexWeight : ℕ → ℚ
  devexIndex : ℕ → ℤ
  numDevexIterations : ℕ
  numBadDevexWeight : ℕ
  colAqIndex : List ℕ
  colAqArray : ℕ → ℚ
  rowApIndex : List ℕ
  rowApArray : ℕ → ℚ
  rowEpIndex : List ℕ
  rowEpArray : ℕ → ℚ
  colBfcIndex : List ℕ
  colBfcArray : ℕ → ℚ
  rowBfcIndex : List ℕ
  rowBfcArray : ℕ → ℚ
  nonbasicFreeColEntries : List ℕ
  hyperChuzcCandidates : List (ℚ × ℕ)
  useHyperChuzc : Bool
  initialiseHyperChuzc : Bool
  doneNextChuzc : Bool
  maxChangedMeasureValue : ℚ
  maxChangedMeasureColumn : ℤ
  maxNonCandidateMeasure : ℚ

/-- The external collaborators the update path calls through the narrow
interface of §6: BTRAN/PRICE on packed vectors, the loop-style chooser
(`HEkk::sparseLoopStyle`), and the basis bookkeeping / factor update. -/
structure Externals where
  unitBtran : ℕ → List ℕ × (ℕ → ℚ)
  tableauRowPrice : List ℕ → (ℕ → ℚ) → List ℕ × (ℕ → ℚ)
  bfcBtran : List ℕ → (ℕ → ℚ) → List ℕ × (ℕ → ℚ)
  bfcPrice : List ℕ → (ℕ → ℚ) → List ℕ × (ℕ → ℚ)
  sparseStyle : ℕ → ℕ → Bool
  updatePivots : EkkState → EkkState
  updateFactor : EkkState → EkkState
  updateMatrix : EkkState → EkkState

/-- The entries a density-switched loop visits: the packed index list in
hyper-sparse style, the whole dimension otherwise. -/
def loopEntries (style : Bool) (idx : List ℕ) (dim : ℕ) : List ℕ :=
  if style then idx else List.range dim

/-- Modelled from the spec: `bad_devex_weight_factor` (§4.8 step 7 gives 3;
HEkkPrimal.h is not among the sources). -/
def badDevexWeightFactor : ℚ := 3

/-- Modelled from the spec: `allowed_num_bad_devex_weight` (§4.8 step 7
gives 3; HEkkPrimal.h is not among the sources). -/
def allowedNumBadDevexWeight : ℕ := 3

/-- The theta/bound computation of `HEkkPrimal::considerBoundSwap`
(HEkkPrimal.cpp:1025-1047): with no leaving row the step is unbounded;
otherwise the step to the leaving bound is computed (with `move_out`
derived from the pivot sign in Phase 2). -/
def considerBoundSwapTheta (s : EkkState) : EkkState :=
  if s.rowOut < 0 then
    { s with thetaPrimal := (s.moveIn : ℚ) * HIGHS_CONST_INF, moveOut := 0 }
  else
    let alphaCol := s.colAqArray s.rowOut.toNat
    let moveOut : ℤ :=
      if s.solvePhase = SolvePhase.phase2 then
        (if 0 < alphaCol * (s.moveIn : ℚ) then -1 else 1)
      else s.moveOut
    let thetaPrimal :=
      if moveOut = 1 then
        (s.baseValue s.rowOut.toNat - s.baseUpper s.rowOut.toNat) / alphaCol
      else
        (s.baseValue s.rowOut.toNat - s.baseLower s.rowOut.toNat) / alphaCol
    { s with alphaCol := alphaCol, moveOut := moveOut, thetaPrimal := thetaPrimal }

/-- `HEkkPrimal::considerBoundSwap` (HEkkPrimal.cpp:1014-1080): after the
step computation, flip the entering variable when its would-be value
crosses the opposite bound by more than the primal feasibility tolerance;
in Phase 2 the absence of both pivot and flip flags possible primal
unboundedness. -/
def considerBoundSwap (s0 : EkkState) : EkkState :=
  let s := considerBoundSwapTheta s0
  let q := s.variableIn.toNat
  let lowerIn := s.workLower q
  let upperIn := s.workUpper q
  let valueIn0 := s.workValue q + s.thetaPrimal
  let flipped : Bool :=
    if 0 < s.moveIn then decide (upperIn + s.primalFeasTol < valueIn0)
    else decide (valueIn0 < lowerIn - s.primalFeasTol)
  let s :=
    if 0 < s.moveIn then
      if upperIn + s.primalFeasTol < valueIn0 then
        { s with rowOut := -1, valueIn := upperIn, thetaPrimal := upperIn - lowerIn }
      else { s with valueIn := valueIn0 }
    else
      if valueIn0 < lowerIn - s.primalFeasTol then
        { s with rowOut := -1, valueIn := lowerIn, thetaPrimal := lowerIn - upperIn }
      else { s with valueIn := valueIn0 }
  if s.solvePhase = SolvePhase.phase2 ∧ ¬(0 ≤ s.rowOut ∨ flipped = true) then
    { s with rebuildReason := RebuildReason.possiblyPrimalUnbounded }
  else s

/-- `HEkkPrimal::updateVerify` (HEkkPrimal.cpp:1948-1978): read the
row-wise pivot from `row_ap[q]` for a structural entering variable and
from `row_ep[q − num_col]` for a slack, form the relative discrepancy with
the column-wise pivot, and flag a possibly singular basis when it exceeds
1e-7 with updates outstanding. -/
def updateVerify (s : EkkState) : EkkState :=
  let absCol := |s.alphaCol|
  let alphaRow :=
    if s.variableIn.toNat < s.numCol then s.rowApArray s.variableIn.toNat
    else s.rowEpArray (s.variableIn.toNat - s.numCol)
  let absRow := |alphaRow|
  let trouble := |absCol - absRow| / min absCol absRow
  let reason :=
    if 1 / 10 ^ 7 < trouble ∧ 0 < s.updateCount then
      RebuildReason.possiblySingularBasis
    else s.rebuildReason
  { s with alphaRow := alphaRow, numericalTrouble := trouble,
           rebuildReason := reason }

/-- The assert of HEkkPrimal.cpp:1972, `assert(numericalTrouble < 1e-3)`:
this proposition failing is the fatal numerical error. -/
def updateVerifyAssertHolds (s : EkkState) : Prop :=
  s.numericalTrouble < 1 / 10 ^ 3

/-- `HEkkPrimal::assessPivot` (HEkkPrimal.cpp:1082-1105): record the pivot
entry and the leaving variable, produce the pivotal row by unit BTRAN and
PRICE (external), and run the numerical cross-check. -/
def assessPivot (ex : Externals) (s : EkkState) : EkkState :=
  let ep := ex.unitBtran s.rowOut.toNat
  let ap := ex.tableauRowPrice ep.1 ep.2
  updateVerify
    { s with alphaCol := s.colAqArray s.rowOut.toNat,
             variableOut := (s.basicIndex s.rowOut.toNat : ℤ),
             rowEpIndex := ep.1, rowEpArray := ep.2,
             rowApIndex := ap.1, rowApArray := ap.2 }

/-- The loop body of `HEkkPrimal::phase1UpdatePrimal`. -/
def phase1UpdatePrimalStep (s : EkkState) (iRow : ℕ) : EkkState :=
  let bv := s.baseValue iRow - s.thetaPrimal * s.colAqArray iRow
  let s := { s with baseValue := Function.update s.baseValue iRow bv }
  let iCol := s.basicIndex iRow
  let wasCost := s.workCost iCol
  let cost : ℚ :=
    if bv < s.baseLower iRow - s.primalFeasTol then -1
    else if s.baseUpper iRow + s.primalFeasTol < bv then 1 else 0
  let s := { s with workCost := Function.update s.workCost iCol cost }
  let s :=
    if wasCost ≠ 0 then
      if cost = 0 then
        { s with numPrimalInfeasibilities := s.numPrimalInfeasibilities - 1 }
      else s
    else
      if cost ≠ 0 then
        { s with numPrimalInfeasibilities := s.numPrimalInfeasibilities + 1 }
      else s
  let deltaCost := cost - wasCost
  if deltaCost ≠ 0 then
    let nbfc := Function.update s.colBfcArray iRow deltaCost
    let s := { s with colBfcArray := nbfc, colBfcIndex := s.colBfcIndex ++ [iRow] }
    if s.numCol ≤ iCol then
      let nd := Function.update s.workDual iCol (s.workDual iCol + deltaCost)
      { s with workDual := nd }
    else s
  else s

/-- `HEkkPrimal::phase1UpdatePrimal` (HEkkPrimal.cpp:1495-1540): update the
basic primal values along the pivot column, recompute the synthetic cost of
each changed row, maintain the infeasibility count, record cost deltas in
`col_basic_feasibility_change` and pre-compensate the duals of basic
logicals. -/
def phase1UpdatePrimal (s0 : EkkState) : EkkState :=
  let s0 := { s0 with colBfcIndex := [], colBfcArray := fun _ => 0 }
  s0.colAqIndex.foldl phase1UpdatePrimalStep s0

/-- The structural-position dual subtraction in
`HEkkPrimal::basicFeasibilityChangeUpdateDual`. -/
def bfcDualStepCol (s : EkkState) (iCol : ℕ) : EkkState :=
  let nd := Function.update s.workDual iCol (s.workDual iCol - s.rowBfcArray iCol)
  { s with workDual := nd }

/-- The logical-position dual subtraction in
`HEkkPrimal::basicFeasibilityChangeUpdateDual`. -/
def bfcDualStepRow (s : EkkState) (iRow : ℕ) : EkkState :=
  let iCol := s.numCol + iRow
  let nd := Function.update s.workDual iCol (s.workDual iCol - s.colBfcArray iRow)
  { s with workDual := nd }

/-- `HEkkPrimal::basicFeasibilityChangeUpdateDual` together with its BTRAN
and PRICE stages (HEkkPrimal.cpp:1724-1877): transform the cost-change
vector (externally), then subtract the resulting components from the duals
at structural and logical positions. -/
def basicFeasibilityChangeUpdateDual (ex : Externals) (s0 : EkkState) : EkkState :=
  let c := ex.bfcBtran s0.colBfcIndex s0.colBfcArray
  let r := ex.bfcPrice c.1 c.2
  let s := { s0 with colBfcIndex := c.1, colBfcArray := c.2,
                     rowBfcIndex := r.1, rowBfcArray := r.2 }
  let s := (loopEntries (ex.sparseStyle s.rowBfcIndex.length s.numCol)
      s.rowBfcIndex s.numCol).foldl bfcDualStepCol s
  (loopEntries (ex.sparseStyle s.colBfcIndex.length s.numRow)
      s.colBfcIndex s.numRow).foldl bfcDualStepRow s

/-- `HEkkPrimal::hyperChooseColumnStart` (HEkkPrimal.cpp:1277-1281). -/
def hyperChooseColumnStart (s : EkkState) : EkkState :=
  { s with maxChangedMeasureValue := 0, maxChangedMeasureColumn := -1,
           doneNextChuzc := false }

/-- `HEkkPrimal::hyperChooseColumnChangedInfeasibility`
(HEkkPrimal.cpp:1289-1300). -/
def hyperChooseColumnChangedInfeasibility (infeasibility : ℚ) (iCol : ℕ)
    (s : EkkState) : EkkState :=
  if s.maxChangedMeasureValue * s.devexWeight iCol < infeasibility then
    { s with
      maxNonCandidateMeasure := max s.maxChangedMeasureValue s.maxNonCandidateMeasure,
      maxChangedMeasureValue := infeasibility / s.devexWeight iCol,
      maxChangedMeasureColumn := (iCol : ℤ) }
  else if s.maxNonCandidateMeasure * s.devexWeight iCol < infeasibility then
    { s with maxNonCandidateMeasure := infeasibility / s.devexWeight iCol }
  else s

/-- Offer the dual infeasibility of a structural column to the incremental
CHUZC tracker. -/
def hyperChangedStepCol (s : EkkState) (iCol : ℕ) : EkkState :=
  let di := (-(s.nonbasicMove iCol) : ℚ) * s.workDual iCol
  if s.dualFeasTol < di then hyperChooseColumnChangedInfeasibility di iCol s else s

/-- Offer the dual infeasibility of the logical of a row to the incremental
CHUZC tracker. -/
def hyperChangedStepRow (s : EkkState) (iRow : ℕ) : EkkState :=
  let iCol := s.numCol + iRow
  let di := (-(s.nonbasicMove iCol) : ℚ) * s.workDual iCol
  if s.dualFeasTol < di then hyperChooseColumnChangedInfeasibility di iCol s else s

/-- Offer the dual infeasibility of the logical of a row to the incremental
CHUZC tracker (entry order of `hyperChooseColumnDualChange`). -/
def hyperChangedStepRowEp (s : EkkState) (iRow : ℕ) : EkkState :=
  let iCol := iRow + s.numCol
  let di := (-(s.nonbasicMove iCol) : ℚ) * s.workDual iCol
  if s.dualFeasTol < di then hyperChooseColumnChangedInfeasibility di iCol s else s

/-- Offer the dual infeasibility of a nonbasic free column to the
incremental CHUZC tracker. -/
def hyperChangedStepFree (s : EkkState) (iCol : ℕ) : EkkState :=
  let di := |s.workDual iCol|
  if s.dualFeasTol < di then hyperChooseColumnChangedInfeasibility di iCol s else s

/-- `HEkkPrimal::hyperChooseColumnBasicFeasibilityChange`
(HEkkPrimal.cpp:1302-1350). -/
def hyperChooseColumnBasicFeasibilityChange (ex : Externals) (s0 : EkkState) :
    EkkState :=
  if ¬ s0.useHyperChuzc then s0
  else
    let s := (loopEntries (ex.sparseStyle s0.rowBfcIndex.length s0.numCol)
        s0.rowBfcIndex s0.numCol).foldl hyperChangedStepCol s0
    let s := (loopEntries (ex.sparseStyle s.colBfcIndex.length s.numRow)
        s.colBfcIndex s.numRow).foldl hyperChangedStepRow s
    if s.rowOut < 0 ∧ s.nonbasicFreeColEntries ≠ [] then
      s.nonbasicFreeColEntries.foldl hyperChangedStepFree s
    else s

/-- The loop body of `HEkkPrimal::phase2UpdatePrimal`: the Bool tracks
whether any new primal infeasibility was seen. -/
def phase2UpdatePrimalStep (acc : EkkState × Bool) (iRow : ℕ) : EkkState × Bool :=
  let s := acc.1
  let bv := s.baseValue iRow - s.thetaPrimal * s.colAqArray iRow
  let s := { s with baseValue := Function.update s.baseValue iRow bv }
  let infeas : ℚ :=
    if bv < s.baseLower iRow - s.primalFeasTol then s.baseLower iRow - bv
    else if s.baseUpper iRow + s.primalFeasTol < bv then bv - s.baseUpper iRow
    else 0
  if s.primalFeasTol < infeas then
    ({ s with numPrimalInfeasibilities := s.numPrimalInfeasibilities + 1 }, true)
  else (s, acc.2)

/-- `HEkkPrimal::phase2UpdatePrimal` (HEkkPrimal.cpp:1598-1643): update the
basic primal values along the pivot column, flag any new primal
infeasibility for rebuild, and advance the updated primal objective. -/
def phase2UpdatePrimal (s0 : EkkState) : EkkState :=
  let res := s0.colAqIndex.foldl phase2UpdatePrimalStep (s0, false)
  let s := res.1
  let s :=
    if res.2 then
      { s with rebuildReason := RebuildReason.primalInfeasibleInPrimalSimplex }
    else s
  let nobj := s.updatedPrimalObjectiveValue + s.workDual s.variableIn.toNat * s.thetaPrimal
  { s with updatedPrimalObjectiveValue := nobj }

/-- `HEkkPrimal::considerInfeasibleValueIn` (HEkkPrimal.cpp:1542-1596): when
the entering value is infeasible, add a synthetic cost in Phase 1, shift
the violated bound in Phase 2 when perturbation is allowed, and flag a
rebuild otherwise. -/
def considerInfeasibleValueIn (s : EkkState) : EkkState :=
  let vq := s.variableIn.toNat
  let lower := s.workLower vq
  let upper := s.workUpper vq
  let cost : ℚ :=
    if s.valueIn < lower - s.primalFeasTol then -1
    else if upper + s.primalFeasTol < s.valueIn then 1 else 0
  if cost = 0 then s
  else if s.solvePhase = SolvePhase.phase1 then
    { s with numPrimalInfeasibilities := s.numPrimalInfeasibilities + 1,
             workCost := Function.update s.workCost vq cost,
             workDual := Function.update s.workDual vq (s.workDual vq + cost) }
  else if s.allowBoundPerturbation then
    if 0 < cost then
      let res := shiftBound false s.valueIn (s.numTotRandomValue vq)
        s.primalFeasTol (s.workUpper vq) (s.workUpperShift vq)
      let nu := Function.update s.workUpper vq res.bound
      let nus := Function.update s.workUpperShift vq res.sumShift
      { s with workUpper := nu, workUpperShift := nus, boundsPerturbed := true }
    else
      let res := shiftBound true s.valueIn (s.numTotRandomValue vq)
        s.primalFeasTol (s.workLower vq) (s.workLowerShift vq)
      let nl := Function.update s.workLower vq res.bound
      let nls := Function.update s.workLowerShift vq res.sumShift
      { s with workLower := nl, workLowerShift := nls, boundsPerturbed := true }
  else
    { s with numPrimalInfeasibilities := s.numPrimalInfeasibilities + 1,
             rebuildReason := RebuildReason.primalInfeasibleInPrimalSimplex }

/-- The structural-column dual update of `HEkkPrimal::updateDual`. -/
def updateDualStepAp (s : EkkState) (iCol : ℕ) : EkkState :=
  let nd := Function.update s.workDual iCol
    (s.workDual iCol - s.thetaDual * s.rowApArray iCol)
  { s with workDual := nd }

/-- The logical-column dual update of `HEkkPrimal::updateDual`. -/
def updateDualStepEp (s : EkkState) (iRow : ℕ) : EkkState :=
  let iCol := iRow + s.numCol
  let nd := Function.update s.workDual iCol
    (s.workDual iCol - s.thetaDual * s.rowEpArray iRow)
  { s with workDual := nd }

/-- `HEkkPrimal::updateDual` (HEkkPrimal.cpp:1424-1450). -/
def updateDual (s0 : EkkState) : EkkState :=
  let s := { s0 with thetaDual := s0.workDual s0.variableIn.toNat / s0.alphaCol }
  let s := s.rowApIndex.foldl updateDualStepAp s
  let s := s.rowEpIndex.foldl updateDualStepEp s
  let s := { s with workDual := Function.update s.workDual s.variableIn.toNat 0 }
  { s with workDual := Function.update s.workDual s.variableOut.toNat (-s.thetaDual) }

/-- The reference-set sum of `HEkkPrimal::updateDevex`
(HEkkPrimal.cpp:1895-1910): the squares of `devex_index[basic_index[r]] *
a_q[r]` over the pivot column plus the reference indicator of the entering
variable. -/
def devexSum (ex : Externals) (s : EkkState) : ℚ :=
  (loopEntries (ex.sparseStyle s.colAqIndex.length s.numRow)
      s.colAqIndex s.numRow).foldl
    (fun acc iRow =>
      let dAlpha := (s.devexIndex (s.basicIndex iRow) : ℚ) * s.colAqArray iRow
      acc + dAlpha * dAlpha) 0
  + (s.devexIndex s.variableIn.toNat : ℚ) * 1

/-- The raise-to-max weight sweep of `HEkkPrimal::updateDevex`
(HEkkPrimal.cpp:1921-1939) over a list of columns with proposed weights. -/
def devexMaxify (g : ℕ → ℚ) (l : List ℕ) (w : ℕ → ℚ) : ℕ → ℚ :=
  l.foldl (fun w i => if w i < g i then Function.update w i (g i) else w) w

/-- `HEkkPrimal::updateDevex` (HEkkPrimal.cpp:1892-1946), with the library
square root passed in as `rsqrt`: form the pivot weight from the reference
set, test the saved weight of the entering variable against
`bad_devex_weight_factor` times it before dividing by the pivot magnitude,
raise the weights along the pivotal row, and set the weights of the
leaving and entering variables. -/
def updateDevex (ex : Externals) (rsqrt : ℚ → ℚ) (s0 : EkkState) : EkkState :=
  let pivotWeightRoot := rsqrt (devexSum ex s0)
  let s :=
    if badDevexWeightFactor * pivotWeightRoot
        < s0.devexWeight s0.variableIn.toNat then
      { s0 with numBadDevexWeight := s0.numBadDevexWeight + 1 }
    else s0
  let pivotWeight := pivotWeightRoot / |s.colAqArray s.rowOut.toNat|
  let w1 := devexMaxify
    (fun iCol => pivotWeight * |s.rowApArray iCol| + (s.devexIndex iCol : ℚ))
    s.rowApIndex s.devexWeight
  let s := { s with devexWeight := w1 }
  let w2 := devexMaxify
    (fun iCol =>
      pivotWeight * |s.rowEpArray (iCol - s.numCol)| + (s.devexIndex iCol : ℚ))
    (s.rowEpIndex.map (fun iRow => iRow + s.numCol)) s.devexWeight
  let s := { s with devexWeight := w2 }
  let w3 := Function.update s.devexWeight s.variableOut.toNat (max 1 pivotWeight)
  let s := { s with devexWeight := w3 }
  let w4 := Function.update s.devexWeight s.variableIn.toNat 1
  let s := { s with devexWeight := w4 }
  { s with numDevexIterations := s.numDevexIterations + 1 }

/-- `HEkkPrimal::resetDevex` (HEkkPrimal.cpp:1879-1890), including the
`hyperChooseColumnClear` it performs. -/
def resetDevex (s : EkkState) : EkkState :=
  { s with devexWeight := fun _ => 1,
           devexIndex := fun iCol => s.nonbasicFlag iCol * s.nonbasicFlag iCol,
           numDevexIterations := 0, numBadDevexWeight := 0,
           initialiseHyperChuzc := s.useHyperChuzc,
           maxNonCandidateMeasure := -1,
           doneNextChuzc := false }

/-- The devex-reset guard of `HEkkPrimal::update` (HEkkPrimal.cpp:1203). -/
def maybeResetDevex (s : EkkState) : EkkState :=
  if allowedNumBadDevexWeight < s.numBadDevexWeight then resetDevex s else s

/-- `HEkkPrimal::removeNonbasicFreeColumn` (HEkkPrimal.cpp:2104-2118); the
HSet removal is modelled from the spec (§4.2) as list erasure. -/
def removeNonbasicFreeColumn (s : EkkState) : EkkState :=
  if s.nonbasicMove s.variableIn.toNat = 0 then
    let ne := s.nonbasicFreeColEntries.erase s.variableIn.toNat
    { s with nonbasicFreeColEntries := ne }
  else s

/-- `HEkkPrimal::hyperChooseColumnDualChange` (HEkkPrimal.cpp:1352-1422). -/
def hyperChooseColumnDualChange (ex : Externals) (s0 : EkkState) : EkkState :=
  if ¬ s0.useHyperChuzc then s0
  else
    let s := (loopEntries (ex.sparseStyle s0.rowApIndex.length s0.numCol)
        s0.rowApIndex s0.numCol).foldl hyperChangedStepCol s0
    let s := (loopEntries (ex.sparseStyle s.rowEpIndex.length s.numRow)
        s.rowEpIndex s.numRow).foldl hyperChangedStepRowEp s
    let s := s.nonbasicFreeColEntries.foldl hyperChangedStepFree s
    hyperChangedStepCol s s.variableOut.toNat

/-- The incremental CHUZC performed at the end of `HEkkPrimal::update`
(`HEkkPrimal::hyperChooseColumn`, HEkkPrimal.cpp:1217-1275), acting on the
engine state. -/
def hyperChooseColumnState (s : EkkState) : EkkState :=
  if ¬ s.useHyperChuzc then s
  else if s.initialiseHyperChuzc then s
  else
    let r := hyperChooseColumn s.nonbasicFreeColEntries s.workDual s.nonbasicMove
      s.nonbasicFlag s.devexWeight s.dualFeasTol s.hyperChuzcCandidates
      s.maxChangedMeasureValue s.maxChangedMeasureColumn s.maxNonCandidateMeasure
    if r.2.2 then
      { s with variableIn := r.1.1, maxNonCandidateMeasure := r.2.1,
               doneNextChuzc := true }
    else
      { s with variableIn := r.1.1, maxNonCandidateMeasure := r.2.1,
               doneNextChuzc := false, initialiseHyperChuzc := true }

/-- `HEkkPrimal::update` (HEkkPrimal.cpp:1107-1215): flip bookkeeping, the
phase-specific primal/dual refresh, and — on the pivot path — the entering
value placement, entering-value infeasibility handling, dual and Devex
updates, free-set removal, hyper-CHUZC feed, basis delegation, iteration
count and devex reset guard. -/
def update (ex : Externals) (rsqrt : ℚ → ℚ) (s0 : EkkState) : EkkState :=
  let s :=
    if s0.rowOut < 0 then
      let nwv := Function.update s0.workValue s0.variableIn.toNat s0.valueIn
      let nmv := Function.update s0.nonbasicMove s0.variableIn.toNat (-s0.moveIn)
      { s0 with variableOut := s0.variableIn, alphaCol := 0, numericalTrouble := 0,
                workValue := nwv, nonbasicMove := nmv }
    else s0
  let s := hyperChooseColumnStart s
  let s :=
    if s.solvePhase = SolvePhase.phase1 then
      hyperChooseColumnBasicFeasibilityChange ex
        (basicFeasibilityChangeUpdateDual ex (phase1UpdatePrimal s))
    else phase2UpdatePrimal s
  if s0.rowOut < 0 then
    { s with primalBoundSwap := s.primalBoundSwap + 1,
             numFlipSinceRebuild := s.numFlipSinceRebuild + 1 }
  else
    let nbv := Function.update s.baseValue s.rowOut.toNat s.valueIn
    let s := { s with baseValue := nbv }
    let s := considerInfeasibleValueIn s
    let s := { s with thetaDual := s.workDual s.variableIn.toNat }
    let s := updateDual s
    let s := updateDevex ex rsqrt s
    let s := removeNonbasicFreeColumn s
    let s := hyperChooseColumnDualChange ex s
    let s := ex.updateMatrix (ex.updateFactor (ex.updatePivots s))
    let s :=
      if s.updateLimit ≤ s.updateCount then
        { s with rebuildReason := RebuildReason.updateLimitReached }
      else s
    let s := { s with iterationCount := s.iterationCount + 1 }
    hyperChooseColumnState (maybeResetDevex s)

/-- The tail of `HEkkPrimal::iterate` after CHUZR and the bound-swap
decision (HEkkPrimal.cpp:629-658): assess the pivot when there is a
leaving row and abort the iteration on a rebuild reason before `update`;
otherwise update, forcing a rebuild when Phase 1 runs out of
infeasibilities. -/
def iterateFinal (ex : Externals) (rsqrt : ℚ → ℚ) (s0 : EkkState) : EkkState :=
  let go : EkkState → EkkState := fun s =>
    let s := update ex rsqrt s
    if s.numPrimalInfeasibilities = 0 ∧ s.solvePhase = SolvePhase.phase1 then
      { s with rebuildReason := RebuildReason.updateLimitReached }
    else s
  if 0 ≤ s0.rowOut then
    let s := assessPivot ex s0
    if s.rebuildReason ≠ RebuildReason.no then s else go s
  else go s0

lemma foldl_proj {σ α β : Type _} (proj : σ → β) (step : σ → α → σ)
    (h : ∀ t i, proj (step t i) = proj t) (l : List α) (t : σ) :
    proj (l.foldl step t) = proj t := by
  induction l generalizing t with
  | nil => rfl
  | cons i tl ih => rw [List.foldl_cons, ih _, h t i]

/-- The fields of the engine state that a bound flip may not touch and
that the phase-specific primal/dual refreshes never touch. -/
def flipFrame (s : EkkState) :=
  (s.workValue, s.nonbasicMove, s.rowOut, s.primalBoundSwap,
   s.numFlipSinceRebuild, s.variableIn, s.solvePhase, s.moveIn,
   s.basicIndex, s.nonbasicFlag, s.updateCount, s.iterationCount,
   s.devexWeight, s.workLower, s.workUpper)

lemma hyperChooseColumnChangedInfeasibility_flipFrame (di : ℚ) (iCol : ℕ)
    (t : EkkState) :
    flipFrame (hyperChooseColumnChangedInfeasibility di iCol t) = flipFrame t := by
  unfold hyperChooseColumnChangedInfeasibility
  split
  · rfl
  · split <;> rfl

lemma phase1UpdatePrimalStep_flipFrame (t : EkkState) (i : ℕ) :
    flipFrame (phase1UpdatePrimalStep t i) = flipFrame t := by
  unfold phase1UpdatePrimalStep
  dsimp only
  repeat' split
  all_goals rfl

lemma phase1UpdatePrimal_flipFrame (s : EkkState) :
    flipFrame (phase1UpdatePrimal s) = flipFrame s := by
  unfold phase1UpdatePrimal
  rw [foldl_proj flipFrame phase1UpdatePrimalStep phase1UpdatePrimalStep_flipFrame]
  rfl

lemma basicFeasibilityChangeUpdateDual_flipFrame (ex : Externals) (s : EkkState) :
    flipFrame (basicFeasibilityChangeUpdateDual ex s) = flipFrame s := by
  unfold basicFeasibilityChangeUpdateDual
  rw [foldl_proj flipFrame bfcDualStepRow (fun t i => rfl),
    foldl_proj flipFrame bfcDualStepCol (fun t i => rfl)]
  rfl

lemma hyperChangedStepCol_flipFrame (t : EkkState) (i : ℕ) :
    flipFrame (hyperChangedStepCol t i) = flipFrame t := by
  unfold hyperChangedStepCol
  dsimp only
  split
  · exact hyperChooseColumnChangedInfeasibility_flipFrame _ _ t
  · rfl

lemma hyperChangedStepRow_flipFrame (t : EkkState) (i : ℕ) :
    flipFrame (hyperChangedStepRow t i) = flipFrame t := by
  unfold hyperChangedStepRow
  dsimp only
  split
  · exact hyperChooseColumnChangedInfeasibility_flipFrame _ _ t
  · rfl

lemma hyperChangedStepFree_flipFrame (t : EkkState) (i : ℕ) :
    flipFrame (hyperChangedStepFree t i) = flipFrame t := by
  unfold hyperChangedStepFree
  dsimp only
  split
  · exact hyperChooseColumnChangedInfeasibility_flipFrame _ _ t
  · rfl

lemma hyperChooseColumnBasicFeasibilityChange_flipFrame (ex : Externals)
    (s : EkkState) :
    flipFrame (hyperChooseColumnBasicFeasibilityChange ex s) = flipFrame s := by
  unfold hyperChooseColumnBasicFeasibilityChange
  split
  · rfl
  · dsimp only
    split
    · rw [foldl_proj flipFrame hyperChangedStepFree hyperChangedStepFree_flipFrame,
        foldl_proj flipFrame hyperChangedStepRow hyperChangedStepRow_flipFrame,
        foldl_proj flipFrame hyperChangedStepCol hyperChangedStepCol_flipFrame]
    · rw [foldl_proj flipFrame hyperChangedStepRow hyperChangedStepRow_flipFrame,
        foldl_proj flipFrame hyperChangedStepCol hyperChangedStepCol_flipFrame]

/-- The fields of the engine state preserved by the phase-2 primal update
(everything a Phase-2 flip claims to leave alone, and the flip frame). -/
def phase2Frame (s : EkkState) :=
  (flipFrame s, s.workDual, s.devexIndex, s.numBadDevexWeight, s.valueIn,
   s.workCost, s.nonbasicFreeColEntries)

lemma phase2UpdatePrimalStep_phase2Frame (t : EkkState × Bool) (i : ℕ) :
    phase2Frame (phase2UpdatePrimalStep t i).1 = phase2Frame t.1 := by
  unfold phase2UpdatePrimalStep
  dsimp only
  repeat' split
  all_goals rfl

lemma phase2UpdatePrimal_phase2Frame (s : EkkState) :
    phase2Frame (phase2UpdatePrimal s) = phase2Frame s := by
  unfold phase2UpdatePrimal
  dsimp only
  have h := foldl_proj (fun (t : EkkState × Bool) => phase2Frame t.1)
    phase2UpdatePrimalStep phase2UpdatePrimalStep_phase2Frame s.colAqIndex (s, false)
  dsimp only at h
  split
  · exact h
  · exact h

lemma flipFrame_fields {a b : EkkState} (h : flipFrame a = flipFrame b) :
    a.workValue = b.workValue ∧ a.nonbasicMove = b.nonbasicMove ∧
    a.rowOut = b.rowOut ∧ a.primalBoundSwap = b.primalBoundSwap ∧
    a.numFlipSinceRebuild = b.numFlipSinceRebuild ∧
    a.variableIn = b.variableIn ∧ a.solvePhase = b.solvePhase ∧
    a.moveIn = b.moveIn ∧ a.basicIndex = b.basicIndex ∧
    a.nonbasicFlag = b.nonbasicFlag ∧ a.updateCount = b.updateCount ∧
    a.iterationCount = b.iterationCount ∧ a.devexWeight = b.devexWeight ∧
    a.workLower = b.workLower ∧ a.workUpper = b.workUpper := by
  unfold flipFrame at h
  simp only [Prod.mk.injEq] at h
  exact h

lemma phase2Frame_fields {a b : EkkState} (h : phase2Frame a = phase2Frame b) :
    flipFrame a = flipFrame b ∧ a.workDual = b.workDual ∧
    a.devexIndex = b.devexIndex ∧ a.numBadDevexWeight = b.numBadDevexWeight ∧
    a.valueIn = b.valueIn ∧ a.workCost = b.workCost ∧
    a.nonbasicFreeColEntries = b.nonbasicFreeColEntries := by
  unfold phase2Frame at h
  simp only [Prod.mk.injEq] at h
  exact h

lemma phase2UpdatePrimal_flipFrame (s : EkkState) :
    flipFrame (phase2UpdatePrimal s) = flipFrame s :=
  (phase2Frame_fields (phase2UpdatePrimal_phase2Frame s)).1

lemma hyperChooseColumnStart_flipFrame (s : EkkState) :
    flipFrame (hyperChooseColumnStart s) = flipFrame s := rfl

/-- The phase-specific refresh inside `HEkkPrimal::update` preserves the
flip frame in both phases. -/
lemma updatePhaseRefresh_flipFrame (ex : Externals) (t : EkkState) :
    flipFrame (if t.solvePhase = SolvePhase.phase1 then
      hyperChooseColumnBasicFeasibilityChange ex
        (basicFeasibilityChangeUpdateDual ex (phase1UpdatePrimal t))
      else phase2UpdatePrimal t) = flipFrame t := by
  split
  · rw [hyperChooseColumnBasicFeasibilityChange_flipFrame,
      basicFeasibilityChangeUpdateDual_flipFrame, phase1UpdatePrimal_flipFrame]
  · rw [phase2UpdatePrimal_flipFrame]

lemma considerBoundSwapTheta_workValue (s : EkkState) :
    (considerBoundSwapTheta s).workValue = s.workValue := by
  unfold considerBoundSwapTheta; repeat' split; all_goals rfl

lemma considerBoundSwapTheta_workLower (s : EkkState) :
    (considerBoundSwapTheta s).workLower = s.workLower := by
  unfold considerBoundSwapTheta; repeat' split; all_goals rfl

lemma considerBoundSwapTheta_workUpper (s : EkkState) :
    (considerBoundSwapTheta s).workUpper = s.workUpper := by
  unfold considerBoundSwapTheta; repeat' split; all_goals rfl

lemma considerBoundSwapTheta_primalFeasTol (s : EkkState) :
    (considerBoundSwapTheta s).primalFeasTol = s.primalFeasTol := by
  unfold considerBoundSwapTheta; repeat' split; all_goals rfl

lemma considerBoundSwapTheta_moveIn (s : EkkState) :
    (considerBoundSwapTheta s).moveIn = s.moveIn := by
  unfold considerBoundSwapTheta; repeat' split; all_goals rfl

lemma considerBoundSwapTheta_variableIn (s : EkkState) :
    (considerBoundSwapTheta s).variableIn = s.variableIn := by
  unfold considerBoundSwapTheta; repeat' split; all_goals rfl

lemma considerBoundSwapTheta_primalBoundSwap (s : EkkState) :
    (considerBoundSwapTheta s).primalBoundSwap = s.primalBoundSwap := by
  unfold considerBoundSwapTheta; repeat' split; all_goals rfl

lemma considerBoundSwapTheta_numFlip (s : EkkState) :
    (considerBoundSwapTheta s).numFlipSinceRebuild = s.numFlipSinceRebuild := by
  unfold considerBoundSwapTheta; repeat' split; all_goals rfl

/-- Under the crossing condition, `considerBoundSwap` takes the flip
branch: `row_out` is cleared, `value_in` becomes the opposite bound and
`theta_primal` the bound span. -/
lemma considerBoundSwap_flip_eq (s : EkkState)
    (hcross : if 0 < (considerBoundSwapTheta s).moveIn
      then (considerBoundSwapTheta s).workUpper
            (considerBoundSwapTheta s).variableIn.toNat
          + (considerBoundSwapTheta s).primalFeasTol
        < (considerBoundSwapTheta s).workValue
            (considerBoundSwapTheta s).variableIn.toNat
          + (considerBoundSwapTheta s).thetaPrimal
      else (considerBoundSwapTheta s).workValue
            (considerBoundSwapTheta s).variableIn.toNat
          + (considerBoundSwapTheta s).thetaPrimal
        < (considerBoundSwapTheta s).workLower
            (considerBoundSwapTheta s).variableIn.toNat
          - (considerBoundSwapTheta s).primalFeasTol) :
    considerBoundSwap s
      = { considerBoundSwapTheta s with
          rowOut := -1,
          valueIn := if 0 < (considerBoundSwapTheta s).moveIn
            then (considerBoundSwapTheta s).workUpper
              (considerBoundSwapTheta s).variableIn.toNat
            else (considerBoundSwapTheta s).workLower
              (considerBoundSwapTheta s).variableIn.toNat,
          thetaPrimal := if 0 < (considerBoundSwapTheta s).moveIn
            then (considerBoundSwapTheta s).workUpper
                (considerBoundSwapTheta s).variableIn.toNat
              - (considerBoundSwapTheta s).workLower
                (considerBoundSwapTheta s).variableIn.toNat
            else (considerBoundSwapTheta s).workLower
                (considerBoundSwapTheta s).variableIn.toNat
              - (considerBoundSwapTheta s).workUpper
                (considerBoundSwapTheta s).variableIn.toNat } := by
  unfold considerBoundSwap
  dsimp only
  by_cases hm : 0 < (considerBoundSwapTheta s).moveIn
  · rw [if_pos hm] at hcross
    simp [hm, hcross]
  · rw [if_neg hm] at hcross
    simp [hm, hcross]

/-- C5: when the entering variable's would-be value crosses its opposite
bound by more than the primal feasibility tolerance, the engine flips it
instead of pivoting: `nonbasic_move[q]` becomes `−move_in`,
`work_value[q]` becomes the opposite bound, `row_out` is −1 (in Phase 2 as
well), and `primal_bound_swap` and `num_flip_since_rebuild` are both
incremented. -/
theorem considerBoundSwap_flip_spec (ex : Externals) (rsqrt : ℚ → ℚ)
    (s : EkkState)
    (hcross : if 0 < s.moveIn
      then s.workUpper s.variableIn.toNat + s.primalFeasTol
        < s.workValue s.variableIn.toNat + (considerBoundSwapTheta s).thetaPrimal
      else s.workValue s.variableIn.toNat + (considerBoundSwapTheta s).thetaPrimal
        < s.workLower s.variableIn.toNat - s.primalFeasTol) :
    (considerBoundSwap s).rowOut = -1 ∧
    (update ex rsqrt (considerBoundSwap s)).rowOut = -1 ∧
    (update ex rsqrt (considerBoundSwap s)).nonbasicMove s.variableIn.toNat
      = -s.moveIn ∧
    (update ex rsqrt (considerBoundSwap s)).workValue s.variableIn.toNat
      = (if 0 < s.moveIn then s.workUpper s.variableIn.toNat
         else s.workLower s.variableIn.toNat) ∧
    (update ex rsqrt (considerBoundSwap s)).primalBoundSwap
      = s.primalBoundSwap + 1 ∧
    (update ex rsqrt (considerBoundSwap s)).numFlipSinceRebuild
      = s.numFlipSinceRebuild + 1 := by
  have hcross2 : if 0 < (considerBoundSwapTheta s).moveIn
      then (considerBoundSwapTheta s).workUpper
            (considerBoundSwapTheta s).variableIn.toNat
          + (considerBoundSwapTheta s).primalFeasTol
        < (considerBoundSwapTheta s).workValue
            (considerBoundSwapTheta s).variableIn.toNat
          + (considerBoundSwapTheta s).thetaPrimal
      else (considerBoundSwapTheta s).workValue
            (considerBoundSwapTheta s).variableIn.toNat
          + (considerBoundSwapTheta s).thetaPrimal
        < (considerBoundSwapTheta s).workLower
            (considerBoundSwapTheta s).variableIn.toNat
          - (considerBoundSwapTheta s).primalFeasTol := by
    simp only [considerBoundSwapTheta_moveIn, considerBoundSwapTheta_workUpper,
      considerBoundSwapTheta_workValue, considerBoundSwapTheta_workLower,
      considerBoundSwapTheta_primalFeasTol, considerBoundSwapTheta_variableIn]
    exact hcross
  rw [considerBoundSwap_flip_eq s hcross2]
  set sθ := considerBoundSwapTheta s with hθ
  set B : ℚ := if 0 < sθ.moveIn then sθ.workUpper sθ.variableIn.toNat
    else sθ.workLower sθ.variableIn.toNat with hB
  set T : ℚ := if 0 < sθ.moveIn
    then sθ.workUpper sθ.variableIn.toNat - sθ.workLower sθ.variableIn.toNat
    else sθ.workLower sθ.variableIn.toNat - sθ.workUpper sθ.variableIn.toNat
    with hT
  set sb : EkkState := { sθ with rowOut := -1, valueIn := B, thetaPrimal := T }
    with hsb
  have hflip : sb.rowOut < 0 := by norm_num [hsb]
  set s1 : EkkState :=
    { sb with variableOut := sb.variableIn, alphaCol := 0, numericalTrouble := 0,
              workValue := Function.update sb.workValue sb.variableIn.toNat sb.valueIn,
              nonbasicMove := Function.update sb.nonbasicMove sb.variableIn.toNat (-sb.moveIn) }
    with hs1
  set s3 : EkkState :=
    (if (hyperChooseColumnStart s1).solvePhase = SolvePhase.phase1 then
      hyperChooseColumnBasicFeasibilityChange ex
        (basicFeasibilityChangeUpdateDual ex
          (phase1UpdatePrimal (hyperChooseColumnStart s1)))
     else phase2UpdatePrimal (hyperChooseColumnStart s1)) with hs3
  have hupd : update ex rsqrt sb
      = { s3 with primalBoundSwap := s3.primalBoundSwap + 1,
                  numFlipSinceRebuild := s3.numFlipSinceRebuild + 1 } := by
    rw [update]
    rw [if_pos hflip, if_pos hflip]
  rw [hupd]
  have hframe : flipFrame s3 = flipFrame s1 := by
    rw [hs3, updatePhaseRefresh_flipFrame ex (hyperChooseColumnStart s1),
      hyperChooseColumnStart_flipFrame s1]
  obtain ⟨hwv, hnm, hro, hpbs, hnf, hvi, _⟩ := flipFrame_fields hframe
  have hvin : sθ.variableIn = s.variableIn := considerBoundSwapTheta_variableIn s
  have hmin : sθ.moveIn = s.moveIn := considerBoundSwapTheta_moveIn s
  have hBs : B = (if 0 < s.moveIn then s.workUpper s.variableIn.toNat
      else s.workLower s.variableIn.toNat) := by
    rw [hB, hmin, hvin, considerBoundSwapTheta_workUpper,
      considerBoundSwapTheta_workLower]
  refine ⟨rfl, ?_, ?_, ?_, ?_, ?_⟩
  · show s3.rowOut = -1
    rw [hro]
  · show s3.nonbasicMove s.variableIn.toNat = -s.moveIn
    rw [hnm]
    show (Function.update sb.nonbasicMove sb.variableIn.toNat (-sb.moveIn))
      s.variableIn.toNat = -s.moveIn
    have : sb.variableIn = s.variableIn := hvin
    rw [this]
    have : sb.moveIn = s.moveIn := hmin
    rw [this, Function.update_same]
  · show s3.workValue s.variableIn.toNat
      = (if 0 < s.moveIn then s.workUpper s.variableIn.toNat
         else s.workLower s.variableIn.toNat)
    rw [hwv]
    show (Function.update sb.workValue sb.variableIn.toNat sb.valueIn)
      s.variableIn.toNat = _
    have : sb.variableIn = s.variableIn := hvin
    rw [this, Function.update_same]
    show B = _
    exact hBs
  · show s3.primalBoundSwap + 1 = s.primalBoundSwap + 1
    rw [hpbs]
    show sb.primalBoundSwap + 1 = s.primalBoundSwap + 1
    show sθ.primalBoundSwap + 1 = s.primalBoundSwap + 1
    rw [considerBoundSwapTheta_primalBoundSwap]
  · show s3.numFlipSinceRebuild + 1 = s.numFlipSinceRebuild + 1
    rw [hnf]
    show sθ.numFlipSinceRebuild + 1 = s.numFlipSinceRebuild + 1
    rw [considerBoundSwapTheta_numFlip]

/-- C10 (amended): a Phase-2 iteration ending in a bound flip leaves the
symbolic basis (basic_index, nonbasic_flag), the factor update count, the
iteration count, all dual values and all Devex data unchanged; the flip
updates `work_value[q]`, `nonbasic_move[q]`, the flip counters, and leaves
`row_out` negative.  (The basic primal values, objective and infeasibility
count may also change; in Phase 1 the dual values do change, see the
counterexample.) -/
theorem update_flip_phase2_frame (ex : Externals) (rsqrt : ℚ → ℚ)
    (s : EkkState) (hphase : s.solvePhase = SolvePhase.phase2)
    (hflip : s.rowOut < 0) :
    (update ex rsqrt s).basicIndex = s.basicIndex ∧
    (update ex rsqrt s).nonbasicFlag = s.nonbasicFlag ∧
    (update ex rsqrt s).updateCount = s.updateCount ∧
    (update ex rsqrt s).iterationCount = s.iterationCount ∧
    (update ex rsqrt s).workDual = s.workDual ∧
    (update ex rsqrt s).devexWeight = s.devexWeight ∧
    (update ex rsqrt s).devexIndex = s.devexIndex ∧
    (update ex rsqrt s).workValue
      = Function.update s.workValue s.variableIn.toNat s.valueIn ∧
    (update ex rsqrt s).nonbasicMove
      = Function.update s.nonbasicMove s.variableIn.toNat (-s.moveIn) ∧
    (update ex rsqrt s).primalBoundSwap = s.primalBoundSwap + 1 ∧
    (update ex rsqrt s).numFlipSinceRebuild = s.numFlipSinceRebuild + 1 ∧
    (update ex rsqrt s).rowOut = s.rowOut := by
  set s1 : EkkState :=
    { s with variableOut := s.variableIn, alphaCol := 0, numericalTrouble := 0,
             workValue := Function.update s.workValue s.variableIn.toNat s.valueIn,
             nonbasicMove := Function.update s.nonbasicMove s.variableIn.toNat (-s.moveIn) }
    with hs1
  have hph1 : ¬ ((hyperChooseColumnStart s1).solvePhase = SolvePhase.phase1) := by
    show ¬ (s.solvePhase = SolvePhase.phase1)
    rw [hphase]
    intro h
    exact absurd h (by decide)
  have hupd : update ex rsqrt s
      = { phase2UpdatePrimal (hyperChooseColumnStart s1) with
          primalBoundSwap :=
            (phase2UpdatePrimal (hyperChooseColumnStart s1)).primalBoundSwap + 1,
          numFlipSinceRebuild :=
            (phase2UpdatePrimal (hyperChooseColumnStart s1)).numFlipSinceRebuild + 1 } := by
    rw [update]
    rw [if_pos hflip, if_pos hflip, if_neg hph1]
  rw [hupd]
  have hp2 : phase2Frame (phase2UpdatePrimal (hyperChooseColumnStart s1))
      = phase2Frame s1 :=
    phase2UpdatePrimal_phase2Frame (hyperChooseColumnStart s1)
  obtain ⟨hflipf, hwd, hdi, _⟩ := phase2Frame_fields hp2
  obtain ⟨hwv, hnm, hro, hpbs, hnf, _, _, _, hbi, hnbf, huc, hic, hdw, _⟩ :=
    flipFrame_fields hflipf
  exact ⟨hbi, hnbf, huc, hic, hwd, hdw, hdi, hwv, hnm,
    by show (phase2UpdatePrimal (hyperChooseColumnStart s1)).primalBoundSwap + 1 = _; rw [hpbs],
    by show (phase2UpdatePrimal (hyperChooseColumnStart s1)).numFlipSinceRebuild + 1 = _; rw [hnf],
    hro⟩

/-- A neutral engine state used to build concrete test states. -/
def defaultEkkState : EkkState where
  numCol := 0
  numRow := 0
  solvePhase := SolvePhase.phase2
  workLower := fun _ => 0
  workUpper := fun _ => 0
  workLowerShift := fun _ => 0
  workUpperShift := fun _ => 0
  workValue := fun _ => 0
  workCost := fun _ => 0
  workDual := fun _ => 0
  baseLower := fun _ => 0
  baseUpper := fun _ => 0
  baseValue := fun _ => 0
  numTotRandomValue := fun _ => 0
  numPrimalInfeasibilities := 0
  updatedPrimalObjectiveValue := 0
  updateCount := 0
  updateLimit := 100
  primalBoundSwap := 0
  boundsPerturbed := false
  allowBoundPerturbation := true
  nonbasicFlag := fun _ => 0
  nonbasicMove := fun _ => 0
  basicIndex := fun _ => 0
  iterationCount := 0
  variableIn := 0
  variableOut := 0
  rowOut := 0
  moveIn := 1
  moveOut := 0
  thetaPrimal := 0
  thetaDual := 0
  valueIn := 0
  alphaCol := 0
  alphaRow := 0
  numericalTrouble := 0
  rebuildReason := RebuildReason.no
  numFlipSinceRebuild := 0
  primalFeasTol := 1/100
  dualFeasTol := 1/100
  devexWeight := fun _ => 1
  devexIndex := fun _ => 0
  numDevexIterations := 0
  numBadDevexWeight := 0
  colAqIndex := []
  colAqArray := fun _ => 0
  rowApIndex := []
  rowApArray := fun _ => 0
  rowEpIndex := []
  rowEpArray := fun _ => 0
  colBfcIndex := []
  colBfcArray := fun _ => 0
  rowBfcIndex := []
  rowBfcArray := fun _ => 0
  nonbasicFreeColEntries := []
  hyperChuzcCandidates := []
  useHyperChuzc := false
  initialiseHyperChuzc := false
  doneNextChuzc := false
  maxChangedMeasureValue := 0
  maxChangedMeasureColumn := -1
  maxNonCandidateMeasure := -1

/-- Externals for a trivial (identity-factor) basis. -/
def trivialExternals : Externals where
  unitBtran := fun _ => ([], fun _ => 0)
  tableauRowPrice := fun _ _ => ([], fun _ => 0)
  bfcBtran := fun idx arr => (idx, arr)
  bfcPrice := fun _ _ => ([], fun _ => 0)
  sparseStyle := fun _ _ => true
  updatePivots := id
  updateFactor := id
  updateMatrix := id

/-- A Phase-1 state about to perform a bound flip: one structural column
(entering, reduced cost −5) and one basic logical whose value crosses its
lower bound during the flip step. -/
def flipPhase1State : EkkState :=
  { defaultEkkState with
    numCol := 1, numRow := 1, solvePhase := SolvePhase.phase1,
    variableIn := 0, rowOut := -1, moveIn := 1, valueIn := 1, thetaPrimal := 1,
    colAqIndex := [0], colAqArray := fun i => if i = 0 then 1 else 0,
    basicIndex := fun i => if i = 0 then 1 else 0,
    baseValue := fun i => if i = 0 then 1/2 else 0,
    baseLower := fun _ => 0, baseUpper := fun _ => 10,
    workDual := fun i => if i = 0 then -5 else 0 }

/-- Externals realising an identity basis with structural column `A = [1]`
for `flipPhase1State`. -/
def flipPhase1Externals : Externals :=
  { trivialExternals with
    bfcPrice := fun _ arr => ([0], fun i => if i = 0 then arr 0 else 0) }

/-- A Phase-2 state about to flip: CHUZR found no row. -/
def phase2FlipState : EkkState :=
  { defaultEkkState with rowOut := -1 }

/-- The C5 witness state: CHUZR found no row and the entering variable
(bounds [0, 1], increasing) would step to an unbounded value. -/
def flipWitnessState : EkkState :=
  { defaultEkkState with rowOut := -1, workUpper := fun _ => 1 }

/-- Counterexample to C10 as stated: in a Phase-1 iteration that ends in a
bound flip, the incremental dual refresh does modify a dual value
(`work_dual[0]` moves from −5 to −4), so a flip does not leave all dual
values unchanged. -/
theorem update_flip_phase1_changes_dual :
    flipPhase1State.rowOut < 0 ∧
    (update flipPhase1Externals (fun x => x) flipPhase1State).workDual 0
      ≠ flipPhase1State.workDual 0 := by
  have h4 : (update flipPhase1Externals (fun x => x) flipPhase1State).workDual 0
      = -4 := by
    norm_num [update, hyperChooseColumnStart, phase1UpdatePrimal,
      phase1UpdatePrimalStep, basicFeasibilityChangeUpdateDual, bfcDualStepCol,
      bfcDualStepRow, hyperChooseColumnBasicFeasibilityChange, loopEntries,
      flipPhase1State, flipPhase1Externals, trivialExternals, defaultEkkState,
      Function.update]
  refine ⟨by decide, ?_⟩
  rw [h4]
  norm_num [flipPhase1State, defaultEkkState]

/-- Witness for C10 (amended): a Phase-2 state with `row_out = −1`. -/
theorem update_flip_phase2_frame_witness :
    phase2FlipState.solvePhase = SolvePhase.phase2 ∧
    phase2FlipState.rowOut < 0 ∧
    (update trivialExternals (fun x => x) phase2FlipState).workDual
      = phase2FlipState.workDual :=
  ⟨rfl, by decide,
   (update_flip_phase2_frame trivialExternals (fun x => x)
     phase2FlipState rfl (by decide)).2.2.2.2.1⟩

/-- Witness for C5: a Phase-2 state whose CHUZR found no row, with the
entering variable crossing its upper bound 1 from below. -/
theorem considerBoundSwap_flip_spec_witness :
    (if 0 < flipWitnessState.moveIn
      then flipWitnessState.workUpper flipWitnessState.variableIn.toNat
          + flipWitnessState.primalFeasTol
        < flipWitnessState.workValue flipWitnessState.variableIn.toNat
          + (considerBoundSwapTheta flipWitnessState).thetaPrimal
      else flipWitnessState.workValue flipWitnessState.variableIn.toNat
          + (considerBoundSwapTheta flipWitnessState).thetaPrimal
        < flipWitnessState.workLower flipWitnessState.variableIn.toNat
          - flipWitnessState.primalFeasTol) ∧
    (considerBoundSwap flipWitnessState).rowOut = -1 := by
  have hcross : if 0 < flipWitnessState.moveIn
      then flipWitnessState.workUpper flipWitnessState.variableIn.toNat
          + flipWitnessState.primalFeasTol
        < flipWitnessState.workValue flipWitnessState.variableIn.toNat
          + (considerBoundSwapTheta flipWitnessState).thetaPrimal
      else flipWitnessState.workValue flipWitnessState.variableIn.toNat
          + (considerBoundSwapTheta flipWitnessState).thetaPrimal
        < flipWitnessState.workLower flipWitnessState.variableIn.toNat
          - flipWitnessState.primalFeasTol := by
    norm_num [flipWitnessState, defaultEkkState, considerBoundSwapTheta,
      HIGHS_CONST_INF]
  exact ⟨hcross, (considerBoundSwap_flip_spec trivialExternals (fun x => x)
    flipWitnessState hcross).1⟩

/-- When the relative pivot discrepancy exceeds 1e-7 with updates
outstanding, `updateVerify` flags a possibly singular basis. -/
lemma updateVerify_reason (s : EkkState)
    (h : 1 / 10 ^ 7 < (updateVerify s).numericalTrouble)
    (hc : 0 < s.updateCount) :
    (updateVerify s).rebuildReason = RebuildReason.possiblySingularBasis := by
  unfold updateVerify at h ⊢
  dsimp only at h ⊢
  rw [if_pos ⟨h, hc⟩]

/-- C6: for every assessed pivot, `numerical_trouble` is the relative
discrepancy of the column-wise and row-wise pivot values, with the row-wise
pivot read from `row_ap[q]` for a structural entering variable and from
`row_ep[q − num_col]` for a slack; when it exceeds 1e-7 with updates
outstanding the engine sets `rebuild_reason = POSSIBLY_SINGULAR_BASIS` and
the iteration aborts before any update: primal values, dual values, Devex
weights, the basis arrays, the update count and the iteration count are
all untouched; `numerical_trouble ≥ 1e-3` is exactly the failure of the
fatal-error assertion. -/
theorem assessPivot_verify_spec (ex : Externals) (rsqrt : ℚ → ℚ)
    (s : EkkState) (hrow : 0 ≤ s.rowOut)
    (htrouble : 1 / 10 ^ 7 < (assessPivot ex s).numericalTrouble)
    (hupd : 0 < s.updateCount) :
    (assessPivot ex s).alphaCol = s.colAqArray s.rowOut.toNat ∧
    (assessPivot ex s).alphaRow
      = (if s.variableIn.toNat < s.numCol
         then (assessPivot ex s).rowApArray s.variableIn.toNat
         else (assessPivot ex s).rowEpArray (s.variableIn.toNat - s.numCol)) ∧
    (assessPivot ex s).numericalTrouble
      = abs (abs ((assessPivot ex s).alphaCol)
            - abs ((assessPivot ex s).alphaRow))
        / min (abs ((assessPivot ex s).alphaCol))
            (abs ((assessPivot ex s).alphaRow)) ∧
    (assessPivot ex s).rebuildReason = RebuildReason.possiblySingularBasis ∧
    iterateFinal ex rsqrt s = assessPivot ex s ∧
    (assessPivot ex s).workValue = s.workValue ∧
    (assessPivot ex s).workDual = s.workDual ∧
    (assessPivot ex s).baseValue = s.baseValue ∧
    (assessPivot ex s).devexWeight = s.devexWeight ∧
    (assessPivot ex s).basicIndex = s.basicIndex ∧
    (assessPivot ex s).nonbasicFlag = s.nonbasicFlag ∧
    (assessPivot ex s).updateCount = s.updateCount ∧
    (assessPivot ex s).iterationCount = s.iterationCount ∧
    (¬ updateVerifyAssertHolds (assessPivot ex s)
      ↔ 1 / 10 ^ 3 ≤ (assessPivot ex s).numericalTrouble) := by
  have hsing : (assessPivot ex s).rebuildReason
      = RebuildReason.possiblySingularBasis := by
    simp only [assessPivot] at htrouble ⊢
    exact updateVerify_reason _ htrouble hupd
  have hne : (assessPivot ex s).rebuildReason ≠ RebuildReason.no := by
    rw [hsing]
    intro hcontra
    exact absurd hcontra (by decide)
  have hiter : iterateFinal ex rsqrt s = assessPivot ex s := by
    unfold iterateFinal
    dsimp only
    rw [if_pos hrow, if_pos hne]
  refine ⟨rfl, rfl, rfl, hsing, hiter, rfl, rfl, rfl, rfl, rfl, rfl, rfl, rfl, ?_⟩
  unfold updateVerifyAssertHolds
  exact not_lt

/-- The C6 witness state: a pivot in row 0 on the structural variable 0
with column-wise pivot 1, one update outstanding. -/
def verifyState : EkkState :=
  { defaultEkkState with
    numCol := 1, numRow := 1, rowOut := 0, variableIn := 0,
    updateCount := 1, colAqArray := fun _ => 1 }

/-- Externals whose priced pivotal row carries the row-wise pivot
1 + 1e-6, giving relative discrepancy 1e-6. -/
def verifyExternals : Externals :=
  { trivialExternals with
    unitBtran := fun _ => ([0], fun _ => 0),
    tableauRowPrice := fun _ _ => ([0], fun i => if i = 0 then 1 + 1/10^6 else 0) }

/-- Witness for C6: the discrepancy 1e-6 exceeds 1e-7, so the assessed
pivot flags a possibly singular basis. -/
theorem assessPivot_verify_spec_witness :
    (0 ≤ verifyState.rowOut ∧
      1 / 10 ^ 7 < (assessPivot verifyExternals verifyState).numericalTrouble ∧
      0 < verifyState.updateCount) ∧
    (assessPivot verifyExternals verifyState).rebuildReason
      = RebuildReason.possiblySingularBasis := by
  have ht : (assessPivot verifyExternals verifyState).numericalTrouble
      = 1 / 10 ^ 6 := by
    norm_num [assessPivot, updateVerify, verifyState, verifyExternals,
      trivialExternals, defaultEkkState, abs, min_def, max_def]
  have htr : 1 / 10 ^ 7
      < (assessPivot verifyExternals verifyState).numericalTrouble := by
    rw [ht]
    norm_num
  exact ⟨⟨by decide, htr, by decide⟩,
    (assessPivot_verify_spec verifyExternals (fun x => x) verifyState
      (by decide) htr (by decide)).2.2.2.1⟩

/-- Pointwise value of the raise-to-max sweep: a visited column gets the
maximum of its old weight and its proposed weight, others keep theirs. -/
lemma devexMaxify_apply (g : ℕ → ℚ) (l : List ℕ) (w : ℕ → ℚ) (i : ℕ) :
    devexMaxify g l w i = if i ∈ l then max (w i) (g i) else w i := by
  induction l generalizing w with
  | nil => simp [devexMaxify]
  | cons j tl ih =>
    show devexMaxify g tl (if w j < g j then Function.update w j (g j) else w) i = _
    rw [ih]
    by_cases hij : i = j
    · subst hij
      have hstep : (if w i < g i then Function.update w i (g i) else w) i
          = max (w i) (g i) := by
        by_cases hlt : w i < g i
        · rw [if_pos hlt, Function.update_same, max_eq_right (le_of_lt hlt)]
        · rw [if_neg hlt, max_eq_left (not_lt.mp hlt)]
      rw [hstep, if_pos (List.mem_cons_self i tl)]
      by_cases hmem : i ∈ tl
      · rw [if_pos hmem, max_assoc, max_self]
      · rw [if_neg hmem]
    · have hstep : (if w j < g j then Function.update w j (g j) else w) i = w i := by
        by_cases hlt : w j < g j
        · rw [if_pos hlt, Function.update_noteq hij]
        · rw [if_neg hlt]
      rw [hstep]
      by_cases hmem : i ∈ tl
      · rw [if_pos hmem, if_pos (List.mem_cons_of_mem j hmem)]
      · rw [if_neg hmem, if_neg (by simp [List.mem_cons, hij, hmem])]

/-- Summation form of an accumulate-left loop. -/
lemma foldl_add_eq (g : ℕ → ℚ) (c : ℚ) (l : List ℕ) :
    l.foldl (fun acc i => acc + g i) c = c + (l.map g).sum := by
  induction l generalizing c with
  | nil => simp
  | cons j tl ih => simp [ih, add_assoc]

/-- Summation over an initial segment as a finite sum. -/
lemma range_map_sum (g : ℕ → ℚ) (n : ℕ) :
    ((List.range n).map g).sum = ∑ i in Finset.range n, g i := by
  induction n with
  | zero => simp
  | succ m ih =>
    rw [List.range_succ, List.map_append, List.sum_append, Finset.sum_range_succ, ih]
    simp

/-- `updateDevex` in closed form: the bad-weight test against
`bad_devex_weight_factor` times the pre-division pivot weight, then the
weight sweeps with the post-division pivot weight. -/
lemma updateDevex_eq (ex : Externals) (rsqrt : ℚ → ℚ) (s : EkkState) :
    updateDevex ex rsqrt s =
      { (if badDevexWeightFactor * rsqrt (devexSum ex s)
            < s.devexWeight s.variableIn.toNat
         then { s with numBadDevexWeight := s.numBadDevexWeight + 1 } else s) with
        devexWeight :=
          Function.update
            (Function.update
              (devexMaxify
                (fun iCol => rsqrt (devexSum ex s)
                    / abs (s.colAqArray s.rowOut.toNat)
                    * abs (s.rowEpArray (iCol - s.numCol))
                    + (s.devexIndex iCol : ℚ))
                (s.rowEpIndex.map (fun iRow => iRow + s.numCol))
                (devexMaxify
                  (fun iCol => rsqrt (devexSum ex s)
                      / abs (s.colAqArray s.rowOut.toNat)
                      * abs (s.rowApArray iCol)
                      + (s.devexIndex iCol : ℚ))
                  s.rowApIndex s.devexWeight))
              s.variableOut.toNat
              (max 1 (rsqrt (devexSum ex s)
                / abs (s.colAqArray s.rowOut.toNat))))
            s.variableIn.toNat 1,
        numDevexIterations := s.numDevexIterations + 1 } := by
  unfold updateDevex
  dsimp only
  split
  · rfl
  · rfl

/-- C7 (amended): the Devex update forms the reference-set sum (exactly the
claimed sum of squares in the dense loop style), tests the entering
variable's saved weight against `bad_devex_weight_factor` times the
PRE-division pivot weight (the square root before dividing by the pivot
magnitude — not, as the claim says, the post-division `pivot_weight`),
then divides by `|alpha_col|`, raises each pivotal-row weight to at least
`pivot_weight·|alpha| + devex_index[col]`, sets `devex_weight[v_out] =
max(1, pivot_weight)` and `devex_weight[q] = 1`, leaves all other weights
unchanged, and the framework is reset exactly when the bad-weight counter
exceeds its allowance. -/
theorem updateDevex_spec (ex : Externals) (rsqrt : ℚ → ℚ) (s : EkkState) :
    (ex.sparseStyle s.colAqIndex.length s.numRow = false →
      devexSum ex s
        = (∑ iRow in Finset.range s.numRow,
            ((s.devexIndex (s.basicIndex iRow) : ℚ) * s.colAqArray iRow)
              * ((s.devexIndex (s.basicIndex iRow) : ℚ) * s.colAqArray iRow))
          + (s.devexIndex s.variableIn.toNat : ℚ)) ∧
    (updateDevex ex rsqrt s).numBadDevexWeight
      = (if badDevexWeightFactor * rsqrt (devexSum ex s)
            < s.devexWeight s.variableIn.toNat
         then s.numBadDevexWeight + 1 else s.numBadDevexWeight) ∧
    (updateDevex ex rsqrt s).devexWeight s.variableIn.toNat = 1 ∧
    (s.variableOut.toNat ≠ s.variableIn.toNat →
      (updateDevex ex rsqrt s).devexWeight s.variableOut.toNat
        = max 1 (rsqrt (devexSum ex s) / abs (s.colAqArray s.rowOut.toNat))) ∧
    (∀ iCol, iCol ∈ s.rowApIndex → iCol ≠ s.variableIn.toNat →
      iCol ≠ s.variableOut.toNat →
      iCol ∉ s.rowEpIndex.map (fun iRow => iRow + s.numCol) →
      (updateDevex ex rsqrt s).devexWeight iCol
        = max (s.devexWeight iCol)
            (rsqrt (devexSum ex s) / abs (s.colAqArray s.rowOut.toNat)
              * abs (s.rowApArray iCol) + (s.devexIndex iCol : ℚ))) ∧
    (∀ iCol, iCol ∈ s.rowEpIndex.map (fun iRow => iRow + s.numCol) →
      iCol ≠ s.variableIn.toNat → iCol ≠ s.variableOut.toNat →
      iCol ∉ s.rowApIndex →
      (updateDevex ex rsqrt s).devexWeight iCol
        = max (s.devexWeight iCol)
            (rsqrt (devexSum ex s) / abs (s.colAqArray s.rowOut.toNat)
              * abs (s.rowEpArray (iCol - s.numCol)) + (s.devexIndex iCol : ℚ))) ∧
    (∀ iCol, iCol ≠ s.variableIn.toNat → iCol ≠ s.variableOut.toNat →
      iCol ∉ s.rowApIndex →
      iCol ∉ s.rowEpIndex.map (fun iRow => iRow + s.numCol) →
      (updateDevex ex rsqrt s).devexWeight iCol = s.devexWeight iCol) ∧
    (updateDevex ex rsqrt s).numDevexIterations = s.numDevexIterations + 1 ∧
    (allowedNumBadDevexWeight < (updateDevex ex rsqrt s).numBadDevexWeight →
      maybeResetDevex (updateDevex ex rsqrt s)
        = resetDevex (updateDevex ex rsqrt s)) ∧
    ((updateDevex ex rsqrt s).numBadDevexWeight ≤ allowedNumBadDevexWeight →
      maybeResetDevex (updateDevex ex rsqrt s) = updateDevex ex rsqrt s) := by
  refine ⟨?_, ?_, ?_, ?_, ?_, ?_, ?_, ?_, ?_, ?_⟩
  · intro h
    unfold devexSum
    rw [loopEntries, h]
    rw [if_neg (by simp)]
    rw [foldl_add_eq
      (fun iRow => ((s.devexIndex (s.basicIndex iRow) : ℚ) * s.colAqArray iRow)
        * ((s.devexIndex (s.basicIndex iRow) : ℚ) * s.colAqArray iRow)) 0
      (List.range s.numRow)]
    rw [range_map_sum]
    ring
  · rw [updateDevex_eq]
    rw [apply_ite (fun t : EkkState => t.numBadDevexWeight)]
  · rw [updateDevex_eq]
    exact Function.update_same _ _ _
  · intro h
    rw [updateDevex_eq]
    show Function.update _ s.variableIn.toNat 1 s.variableOut.toNat = _
    rw [Function.update_noteq h, Function.update_same]
  · intro iCol hap hq hvout hep
    rw [updateDevex_eq]
    show Function.update _ s.variableIn.toNat 1 iCol = _
    rw [Function.update_noteq hq, Function.update_noteq hvout,
      devexMaxify_apply, if_neg hep, devexMaxify_apply, if_pos hap]
  · intro iCol hep hq hvout hap
    rw [updateDevex_eq]
    show Function.update _ s.variableIn.toNat 1 iCol = _
    rw [Function.update_noteq hq, Function.update_noteq hvout,
      devexMaxify_apply, if_pos hep, devexMaxify_apply, if_neg hap]
  · intro iCol hq hvout hap hep
    rw [updateDevex_eq]
    show Function.update _ s.variableIn.toNat 1 iCol = _
    rw [Function.update_noteq hq, Function.update_noteq hvout,
      devexMaxify_apply, if_neg hep, devexMaxify_apply, if_neg hap]
  · rw [updateDevex_eq]
  · intro h
    unfold maybeResetDevex
    rw [if_pos h]
  · intro h
    unfold maybeResetDevex
    rw [if_neg (not_lt.mpr h)]

/-- The C7 counterexample state: entering variable 0 with saved weight 2,
pivot magnitude 2, reference-set sum 1 (so the exact square root is 1 and
the post-division pivot weight is 1/2). -/
def devexState : EkkState :=
  { defaultEkkState with
    variableIn := 0, variableOut := 1, rowOut := 0,
    colAqArray := fun _ => 2,
    devexWeight := fun _ => 2,
    devexIndex := fun _ => 1 }

/-- Counterexample to C7 as stated: the reference-set sum is 1, so the
(exact) square root is 1 and the post-division `pivot_weight` is 1/2;
the saved weight 2 of the entering variable exceeds
`3 · pivot_weight = 3/2`, yet the bad-weight counter is not incremented,
because the code performs the comparison against three times the
PRE-division root (3 · 1 = 3 > 2). -/
theorem updateDevex_bad_weight_check_uses_predivision_weight :
    devexSum trivialExternals devexState = 1 ∧
    badDevexWeightFactor
        * (1 / abs (devexState.colAqArray devexState.rowOut.toNat))
      < devexState.devexWeight devexState.variableIn.toNat ∧
    (updateDevex trivialExternals (fun x => x) devexState).numBadDevexWeight
      = devexState.numBadDevexWeight := by
  have hsum : devexSum trivialExternals devexState = 1 := by
    norm_num [devexSum, loopEntries, devexState, defaultEkkState, trivialExternals]
  refine ⟨hsum, ?_, ?_⟩
  · norm_num [badDevexWeightFactor, devexState, defaultEkkState, abs]
  · rw [updateDevex_eq]
    rw [apply_ite (fun t : EkkState => t.numBadDevexWeight)]
    rw [if_neg ?hcond]
    case hcond =>
      rw [hsum]
      norm_num [badDevexWeightFactor, devexState, defaultEkkState]

/-- Witness for C7 (amended) at a concrete state: the entering variable's
weight is reset to 1. -/
theorem updateDevex_spec_witness :
    (updateDevex trivialExternals (fun x => x) devexState).devexWeight
        devexState.variableIn.toNat = 1 :=
  (updateDevex_spec trivialExternals (fun x => x) devexState).2.2.1

/-- The free-column count of `HEkkPrimal::initialise`
(HEkkPrimal.cpp:247-254): the number of variables whose working bounds are
exactly ±∞ — the nonbasic flag is not consulted. -/
def initialiseNumFreeCol (numTot : ℕ) (workLower workUpper : ℕ → ℚ) : ℕ :=
  (List.range numTot).countP (fun iCol =>
    decide (workLower iCol = -HIGHS_CONST_INF) &&
    decide (workUpper iCol = HIGHS_CONST_INF))

/-- `HEkkPrimal::getNonbasicFreeColumnSet` (HEkkPrimal.cpp:2088-2102): the
entry list of the rebuilt nonbasic-free set — variables that are nonbasic
(`nonbasic_flag = 1`) and whose working bounds reach ±∞. -/
def getNonbasicFreeColumnSet (numTot : ℕ) (nonbasicFlag : ℕ → ℤ)
    (workLower workUpper : ℕ → ℚ) : List ℕ :=
  (List.range numTot).filter (fun iCol =>
    decide (nonbasicFlag iCol = 1) &&
    decide (workLower iCol ≤ -HIGHS_CONST_INF) &&
    decide (HIGHS_CONST_INF ≤ workUpper iCol))

lemma hyperChooseColumnChangedInfeasibility_entries (di : ℚ) (iCol : ℕ)
    (t : EkkState) :
    (hyperChooseColumnChangedInfeasibility di iCol t).nonbasicFreeColEntries
      = t.nonbasicFreeColEntries := by
  unfold hyperChooseColumnChangedInfeasibility
  split
  · rfl
  · split <;> rfl

lemma phase1UpdatePrimalStep_entries (t : EkkState) (i : ℕ) :
    (phase1UpdatePrimalStep t i).nonbasicFreeColEntries
      = t.nonbasicFreeColEntries := by
  unfold phase1UpdatePrimalStep
  dsimp only
  repeat' split
  all_goals rfl

lemma phase1UpdatePrimal_entries (s : EkkState) :
    (phase1UpdatePrimal s).nonbasicFreeColEntries = s.nonbasicFreeColEntries := by
  unfold phase1UpdatePrimal
  rw [foldl_proj (fun t : EkkState => t.nonbasicFreeColEntries)
    phase1UpdatePrimalStep phase1UpdatePrimalStep_entries]

lemma basicFeasibilityChangeUpdateDual_entries (ex : Externals) (s : EkkState) :
    (basicFeasibilityChangeUpdateDual ex s).nonbasicFreeColEntries
      = s.nonbasicFreeColEntries := by
  unfold basicFeasibilityChangeUpdateDual
  rw [foldl_proj (fun t : EkkState => t.nonbasicFreeColEntries)
      bfcDualStepRow (fun t i => rfl),
    foldl_proj (fun t : EkkState => t.nonbasicFreeColEntries)
      bfcDualStepCol (fun t i => rfl)]

lemma hyperChangedStepCol_entries (t : EkkState) (i : ℕ) :
    (hyperChangedStepCol t i).nonbasicFreeColEntries
      = t.nonbasicFreeColEntries := by
  unfold hyperChangedStepCol
  dsimp only
  split
  · exact hyperChooseColumnChangedInfeasibility_entries _ _ t
  · rfl

lemma hyperChangedStepRow_entries (t : EkkState) (i : ℕ) :
    (hyperChangedStepRow t i).nonbasicFreeColEntries
      = t.nonbasicFreeColEntries := by
  unfold hyperChangedStepRow
  dsimp only
  split
  · exact hyperChooseColumnChangedInfeasibility_entries _ _ t
  · rfl

lemma hyperChangedStepFree_entries (t : EkkState) (i : ℕ) :
    (hyperChangedStepFree t i).nonbasicFreeColEntries
      = t.nonbasicFreeColEntries := by
  unfold hyperChangedStepFree
  dsimp only
  split
  · exact hyperChooseColumnChangedInfeasibility_entries _ _ t
  · rfl

lemma hyperChooseColumnBasicFeasibilityChange_entries (ex : Externals)
    (s : EkkState) :
    (hyperChooseColumnBasicFeasibilityChange ex s).nonbasicFreeColEntries
      = s.nonbasicFreeColEntries := by
  unfold hyperChooseColumnBasicFeasibilityChange
  split
  · rfl
  · dsimp only
    split
    · rw [foldl_proj (fun t : EkkState => t.nonbasicFreeColEntries)
          hyperChangedStepFree hyperChangedStepFree_entries,
        foldl_proj (fun t : EkkState => t.nonbasicFreeColEntries)
          hyperChangedStepRow hyperChangedStepRow_entries,
        foldl_proj (fun t : EkkState => t.nonbasicFreeColEntries)
          hyperChangedStepCol hyperChangedStepCol_entries]
    · rw [foldl_proj (fun t : EkkState => t.nonbasicFreeColEntries)
          hyperChangedStepRow hyperChangedStepRow_entries,
        foldl_proj (fun t : EkkState => t.nonbasicFreeColEntries)
          hyperChangedStepCol hyperChangedStepCol_entries]

/-- The phase-specific refresh inside `HEkkPrimal::update` never touches
the nonbasic-free set. -/
lemma updatePhaseRefresh_entries (ex : Externals) (t : EkkState) :
    (if t.solvePhase = SolvePhase.phase1 then
      hyperChooseColumnBasicFeasibilityChange ex
        (basicFeasibilityChangeUpdateDual ex (phase1UpdatePrimal t))
      else phase2UpdatePrimal t).nonbasicFreeColEntries
      = t.nonbasicFreeColEntries := by
  split
  · rw [hyperChooseColumnBasicFeasibilityChange_entries,
      basicFeasibilityChangeUpdateDual_entries, phase1UpdatePrimal_entries]
  · exact (phase2Frame_fields (phase2UpdatePrimal_phase2Frame t)).2.2.2.2.2.2

/-- Counterexample to C2 as stated: one variable with working bounds ±∞
(so `initialise` counts it in `num_free_col`) that is basic
(`nonbasic_flag = 0`), so the rebuilt nonbasic-free set is empty and
`|S_free| ≠ num_free_col`. -/
theorem freeColSet_count_mismatch :
    initialiseNumFreeCol 1 (fun _ => -HIGHS_CONST_INF)
        (fun _ => HIGHS_CONST_INF) = 1 ∧
    (getNonbasicFreeColumnSet 1 (fun _ => 0) (fun _ => -HIGHS_CONST_INF)
        (fun _ => HIGHS_CONST_INF)).length = 0 := by
  have hr : List.range 1 = [0] := rfl
  constructor
  · unfold initialiseNumFreeCol
    rw [hr]
    have h1 : (decide ((-HIGHS_CONST_INF : ℚ) = -HIGHS_CONST_INF)) = true :=
      decide_eq_true rfl
    have h2 : (decide ((HIGHS_CONST_INF : ℚ) = HIGHS_CONST_INF)) = true :=
      decide_eq_true rfl
    simp [List.countP_cons, h1, h2]
  · unfold getNonbasicFreeColumnSet
    rw [hr]
    have h0 : (decide ((0 : ℤ) = 1)) = false := by decide
    simp [List.filter_cons, h0]

/-- C2 (amended): with working bounds clamped to the ±∞ representation,
the rebuilt nonbasic-free set has at most `num_free_col` entries (equality
fails when a free column is basic — see the counterexample), every member
is a nonbasic variable with working bounds exactly ±∞, the pivot-path
removal deletes exactly the entering variable from the set, and a bound
flip leaves the set, the nonbasic flags and the working bounds untouched. -/
theorem nonbasicFreeColSet_spec (numTot : ℕ) (nonbasicFlag : ℕ → ℤ)
    (workLower workUpper : ℕ → ℚ)
    (hclamp : ∀ i, -HIGHS_CONST_INF ≤ workLower i ∧
      workUpper i ≤ HIGHS_CONST_INF)
    (ex : Externals) (rsqrt : ℚ → ℚ) (s : EkkState) :
    (getNonbasicFreeColumnSet numTot nonbasicFlag workLower workUpper).length
      ≤ initialiseNumFreeCol numTot workLower workUpper ∧
    (∀ v ∈ getNonbasicFreeColumnSet numTot nonbasicFlag workLower workUpper,
      v < numTot ∧ nonbasicFlag v = 1 ∧ workLower v = -HIGHS_CONST_INF ∧
      workUpper v = HIGHS_CONST_INF) ∧
    (s.nonbasicMove s.variableIn.toNat = 0 → s.nonbasicFreeColEntries.Nodup →
      s.variableIn.toNat ∉ (removeNonbasicFreeColumn s).nonbasicFreeColEntries) ∧
    (∀ v ∈ s.nonbasicFreeColEntries, v ≠ s.variableIn.toNat →
      v ∈ (removeNonbasicFreeColumn s).nonbasicFreeColEntries) ∧
    (s.rowOut < 0 →
      (update ex rsqrt s).nonbasicFreeColEntries = s.nonbasicFreeColEntries ∧
      (update ex rsqrt s).nonbasicFlag = s.nonbasicFlag ∧
      (update ex rsqrt s).workLower = s.workLower ∧
      (update ex rsqrt s).workUpper = s.workUpper) := by
  refine ⟨?_, ?_, ?_, ?_, ?_⟩
  · unfold getNonbasicFreeColumnSet initialiseNumFreeCol
    rw [← List.countP_eq_length_filter]
    refine List.countP_mono_left ?_
    intro i _ h
    simp only [Bool.and_eq_true, decide_eq_true_eq] at h ⊢
    obtain ⟨⟨_, hl⟩, hu⟩ := h
    exact ⟨le_antisymm hl (hclamp i).1, le_antisymm (hclamp i).2 hu⟩
  · intro v hv
    unfold getNonbasicFreeColumnSet at hv
    rw [List.mem_filter] at hv
    obtain ⟨hrange, hpred⟩ := hv
    simp only [Bool.and_eq_true, decide_eq_true_eq] at hpred
    obtain ⟨⟨hflag, hl⟩, hu⟩ := hpred
    exact ⟨List.mem_range.mp hrange, hflag,
      le_antisymm hl (hclamp v).1, le_antisymm (hclamp v).2 hu⟩
  · intro hmove hnd
    unfold removeNonbasicFreeColumn
    rw [if_pos hmove]
    dsimp only
    intro hmem
    exact absurd rfl ((List.Nodup.mem_erase_iff hnd).mp hmem).1
  · intro v hv hne
    unfold removeNonbasicFreeColumn
    split
    · dsimp only
      exact (List.mem_erase_of_ne hne).mpr hv
    · exact hv
  · intro hflip
    set s1 : EkkState :=
      { s with variableOut := s.variableIn, alphaCol := 0, numericalTrouble := 0,
               workValue := Function.update s.workValue s.variableIn.toNat s.valueIn,
               nonbasicMove := Function.update s.nonbasicMove s.variableIn.toNat (-s.moveIn) }
      with hs1
    set s3 : EkkState :=
      (if (hyperChooseColumnStart s1).solvePhase = SolvePhase.phase1 then
        hyperChooseColumnBasicFeasibilityChange ex
          (basicFeasibilityChangeUpdateDual ex
            (phase1UpdatePrimal (hyperChooseColumnStart s1)))
       else phase2UpdatePrimal (hyperChooseColumnStart s1)) with hs3
    have hupd : update ex rsqrt s
        = { s3 with primalBoundSwap := s3.primalBoundSwap + 1,
                    numFlipSinceRebuild := s3.numFlipSinceRebuild + 1 } := by
      rw [update]
      rw [if_pos hflip, if_pos hflip]
    have hent : s3.nonbasicFreeColEntries = s.nonbasicFreeColEntries := by
      rw [hs3, updatePhaseRefresh_entries ex (hyperChooseColumnStart s1)]
      rfl
    have hframe : flipFrame s3 = flipFrame s1 := by
      rw [hs3, updatePhaseRefresh_flipFrame ex (hyperChooseColumnStart s1),
        hyperChooseColumnStart_flipFrame s1]
    obtain ⟨_, _, _, _, _, _, _, _, _, hnbf, _, _, _, hwl, hwu⟩ :=
      flipFrame_fields hframe
    rw [hupd]
    exact ⟨hent, hnbf, hwl, hwu⟩

/-- Witness for C2 (amended) at a concrete input: one nonbasic free
variable, and a flip state whose set survives the update. -/
theorem nonbasicFreeColSet_spec_witness :
    (∀ i : ℕ, -HIGHS_CONST_INF ≤ ((fun _ => -HIGHS_CONST_INF) i : ℚ) ∧
      ((fun _ => HIGHS_CONST_INF) i : ℚ) ≤ HIGHS_CONST_INF) ∧
    phase2FlipState.rowOut < 0 ∧
    (getNonbasicFreeColumnSet 1 (fun _ => 1) (fun _ => -HIGHS_CONST_INF)
        (fun _ => HIGHS_CONST_INF)).length
      ≤ initialiseNumFreeCol 1 (fun _ => -HIGHS_CONST_INF)
        (fun _ => HIGHS_CONST_INF) ∧
    (update trivialExternals (fun x => x) phase2FlipState).nonbasicFreeColEntries
      = phase2FlipState.nonbasicFreeColEntries := by
  have hclamp : ∀ i : ℕ, -HIGHS_CONST_INF ≤ ((fun _ => -HIGHS_CONST_INF) i : ℚ) ∧
      ((fun _ => HIGHS_CONST_INF) i : ℚ) ≤ HIGHS_CONST_INF :=
    fun i => ⟨le_refl _, le_refl _⟩
  have h := nonbasicFreeColSet_spec 1 (fun _ => 1) (fun _ => -HIGHS_CONST_INF)
    (fun _ => HIGHS_CONST_INF) hclamp trivialExternals (fun x => x)
    phase2FlipState
  exact ⟨hclamp, by decide, h.1, (h.2.2.2.2 (by decide)).1⟩

end HEkkPrimal
